import Mathlib

/-!
Verification of the stupidwm window-manager core (src/stupidwm.c).

The embedding models the mutable C state explicitly:
* `Client` cells live in an explicit heap (`HeapT`, an association list from
  addresses to cells), mirroring the `malloc`ed doubly linked `Client` nodes;
* the global `workspaces[10]` array is a `List Workspace` of pairs
  `(first, curr)` of optional addresses, exactly as in the C struct;
* `selected_monitor->curr_workspace` is the `curW` field; the C macro
  `SEL_MONITOR_WS` (`workspaces[selected_monitor->curr_workspace]`) is
  modelled by `selWs` (reads) and `setSelFirst`/`setSelCurr` (field writes),
  evaluated against the *current* `curW` exactly as the macro expands;
* calls into Xlib are recorded as a trace of `XCall` events;
* behaviour that is undefined in C (dereferencing a null or dangling
  pointer) and non-terminating traversals of cyclic lists are modelled by
  `Except.error`.

Every operation below is a direct translation of the corresponding C
function of src/stupidwm.c, keeping the source's names.
-/

namespace StupidWM

abbrev Addr := Nat

abbrev Win := Nat

/-- One `Client` cell: `struct Client { Client *next; Client *prev; Window window; }`. -/
structure Client where
  next : Option Addr
  prev : Option Addr
  window : Win
deriving DecidableEq, Repr

/-- The heap of allocated `Client` cells, keyed by address. -/
abbrev HeapT := List (Addr × Client)

/-- Read the cell at address `a` (first matching entry). -/
def hGet (h : HeapT) (a : Addr) : Option Client :=
  match h with
  | [] => none
  | (b, c) :: t => if b = a then some c else hGet t a

/-- Overwrite the cell at address `a` (first matching entry). -/
def hSet (h : HeapT) (a : Addr) (c : Client) : HeapT :=
  match h with
  | [] => []
  | (b, c0) :: t => if b = a then (b, c) :: t else (b, c0) :: hSet t a c

/-- `free` the cell at address `a`. -/
def hFree (h : HeapT) (a : Addr) : HeapT :=
  match h with
  | [] => []
  | (b, c0) :: t => if b = a then hFree t a else (b, c0) :: hFree t a

/-- `struct Workspace { Client *first; Client *curr; }`. -/
structure Workspace where
  first : Option Addr
  curr : Option Addr
deriving DecidableEq, Repr

def emptyWs : Workspace := ⟨none, none⟩

/-- The global state of the window manager: the heap of client cells, the
allocator counter, the ten-slot `workspaces` array, the selected monitor's
`curr_workspace` index, its geometry, and the quit flag. -/
structure WmState where
  heap : HeapT
  nextAddr : Addr
  ws : List Workspace
  curW : Nat
  monW : Nat
  monH : Nat
  quitFlag : Bool
deriving DecidableEq, Repr

/-- `workspaces[k]`. -/
def getWs (s : WmState) (k : Nat) : Workspace := s.ws.getD k emptyWs

/-- The macro `SEL_MONITOR_WS`, i.e. `workspaces[selected_monitor->curr_workspace]`, read. -/
def selWs (s : WmState) : Workspace := getWs s s.curW

/-- `SEL_MONITOR_WS.first = o` (field write through the macro). -/
def setSelFirst (s : WmState) (o : Option Addr) : WmState :=
  { s with ws := s.ws.set s.curW { selWs s with first := o } }

/-- `SEL_MONITOR_WS.curr = o` (field write through the macro). -/
def setSelCurr (s : WmState) (o : Option Addr) : WmState :=
  { s with ws := s.ws.set s.curW { selWs s with curr := o } }

/-- Calls issued to the X server, recorded as a trace. -/
inductive XCall where
  | unmapW (w : Win)
  | mapW (w : Win)
  | moveResize (w : Win) (x y wd ht : Int)
  | setBorderWidth (w : Win) (bw : Nat)
  | setBorder (w : Win) (color : Nat)
  | setInputFocus (w : Win)
  | raiseW (w : Win)
  | selectInput (w : Win)
  | drawBar
  | sendKill (w : Win)
  | configure (w : Win)
deriving DecidableEq, Repr

def bar_height : Nat := 20

def focus_color : Nat := 0

def unfocus_color : Nat := 1

def rootwin : Win := 0

/-- Default cell used to totalise reads that are guarded elsewhere. -/
def dfltCell : Client := ⟨none, none, 0⟩

def cellOf (h : HeapT) (a : Addr) : Client := (hGet h a).getD dfltCell

def winOf (h : HeapT) (a : Addr) : Win := (cellOf h a).window

def winsOf (h : HeapT) (ns : List Addr) : List Win := ns.map (winOf h)

/-- Collect the `(addr, cell)` pairs of the list starting at `o`, following
`next` pointers (every list walk `for (cl = …; cl; cl = cl->next)` in the C
source). Fuel bounds the walk; running out of fuel models a cyclic list (the
C loop would not terminate), a missing cell models a dangling pointer (UB). -/
def collectCells (h : HeapT) : Nat → Option Addr → Except String (List (Addr × Client))
  | _, none => .ok []
  | 0, some _ => .error "cyclic list"
  | fuel + 1, some a =>
    match hGet h a with
    | none => .error "dangling pointer"
    | some c => (collectCells h fuel c.next).map ((a, c) :: ·)

/-- Scan the list starting at `o` for the first cell whose `window` equals `w`
(the search loops in `maprequest`, `destroynotify` and `enternotify`). -/
def findWin (h : HeapT) (w : Win) : Nat → Option Addr → Except String (Option Addr)
  | _, none => .ok none
  | 0, some _ => .error "cyclic list"
  | fuel + 1, some a =>
    match hGet h a with
    | none => .error "dangling pointer"
    | some c => if c.window = w then .ok (some a) else findWin h w fuel c.next

/-- Walk to the last node (`for (last = …; last->next; last = last->next)` in `add_window`). -/
def lastAddr (h : HeapT) : Nat → Addr → Except String Addr
  | 0, _ => .error "cyclic list"
  | fuel + 1, a =>
    match hGet h a with
    | none => .error "dangling pointer"
    | some c =>
      match c.next with
      | none => .ok a
      | some b => lastAddr h fuel b

/-- `save_state(idx)`: `workspaces[idx].curr = SEL_MONITOR_WS.curr;
workspaces[idx].first = SEL_MONITOR_WS.first;`. -/
def save_state (s : WmState) (idx : Nat) : WmState :=
  { s with ws := s.ws.set idx ⟨(selWs s).first, (selWs s).curr⟩ }

/-- `update_global(idx)`: the two field writes go through `SEL_MONITOR_WS`,
i.e. into slot `curr_workspace` as it is *before* the index is updated —
this is the aliasing introduced by the macro. -/
def update_global (s : WmState) (idx : Nat) : WmState :=
  let s1 := setSelFirst s (getWs s idx).first
  let s2 := setSelCurr s1 (getWs s1 idx).curr
  { s2 with curW := idx }

/-- `add_window(w)`: allocate a cell, link it at the tail (or as the head of
an empty list), subscribe to EnterNotify, and focus it. -/
def add_window (s : WmState) (w : Win) : Except String (WmState × List XCall) :=
  let a := s.nextAddr
  match (selWs s).first with
  | none =>
    let s1 := { s with heap := (a, (⟨none, none, w⟩ : Client)) :: s.heap, nextAddr := a + 1 }
    let s2 := setSelFirst s1 (some a)
    let s3 := setSelCurr s2 (some a)
    .ok (s3, [XCall.selectInput w])
  | some f =>
    match lastAddr s.heap s.heap.length f with
    | .error e => .error e
    | .ok l =>
      let h1 : HeapT := (a, (⟨none, some l, w⟩ : Client)) :: s.heap
      match hGet h1 l with
      | none => .error "dangling pointer"
      | some cl =>
        let s1 := { s with heap := hSet h1 l { cl with next := some a }, nextAddr := a + 1 }
        let s2 := setSelCurr s1 (some a)
        .ok (s2, [XCall.selectInput w])

/-- The scan loop of `remove_window`. At a match the four cases of the C code
run; note that in the tail case (`cl->prev != NULL`, `cl->next == NULL`) the
source executes `cl->next->prev = cl->prev;` — a null-pointer dereference,
modelled by `Except.error`. The loop continues from the old `cl->next` except
in the single-node case, which returns. -/
def remove_scan (w : Win) : Nat → WmState → Option Addr → Except String WmState
  | _, s, none => .ok s
  | 0, _, some _ => .error "cyclic list"
  | fuel + 1, s, some a =>
    match hGet s.heap a with
    | none => .error "dangling pointer"
    | some c =>
      if c.window = w then
        match c.prev, c.next with
        | none, none =>
          let h1 := match (selWs s).first with
            | none => s.heap
            | some f => hFree s.heap f
          let s1 := setSelCurr (setSelFirst { s with heap := h1 } none) none
          .ok s1
        | none, some nx =>
          let s1 := setSelFirst s (some nx)
          match hGet s1.heap nx with
          | none => .error "dangling pointer"
          | some cn =>
            let s2 := { s1 with heap := hSet s1.heap nx { cn with prev := none } }
            let s3 := setSelCurr s2 (some nx)
            remove_scan w fuel s3 c.next
        | some _, none => .error "null dereference"
        | some pv, some nx =>
          match hGet s.heap pv with
          | none => .error "dangling pointer"
          | some cp =>
            let s1 := { s with heap := hSet s.heap pv { cp with next := some nx } }
            match hGet s1.heap nx with
            | none => .error "dangling pointer"
            | some cn =>
              let s2 := { s1 with heap := hSet s1.heap nx { cn with prev := some pv } }
              let s3 := setSelCurr s2 (some pv)
              remove_scan w fuel s3 c.next
      else
        remove_scan w fuel s c.next

/-- `remove_window(w)`. -/
def remove_window (s : WmState) (w : Win) : Except String WmState :=
  remove_scan w (s.heap.length + 1) s (selWs s).first

/-- `tile_screen()`: master/stack layout of the selected monitor's active
list, with `space = 10`, `start_y = bar_height + space` and master width
`0.55 * width` (the double multiplication truncates to `⌊55·w/100⌋`). -/
def tile_screen (s : WmState) : Except String (List XCall) :=
  match (selWs s).first with
  | none => .ok []
  | some f =>
    match hGet s.heap f with
    | none => .error "dangling pointer"
    | some cf =>
      match cf.next with
      | none =>
        .ok [XCall.moveResize cf.window 10 30 ((s.monW : Int) - 3 * 10) ((s.monH : Int) - 3 * 10)]
      | some _ =>
        match collectCells s.heap s.heap.length cf.next with
        | .error e => .error e
        | .ok rest =>
          let master_size : Nat := 55 * s.monW / 100
          let n := rest.length
          .ok (XCall.moveResize cf.window 10 30 (master_size : Int) ((s.monH : Int) - 2 * 10)
            :: rest.enum.map (fun p =>
                XCall.moveResize p.2.2.window ((master_size : Int) + 3 * 10)
                  (30 + (p.1 : Int) * ((s.monH / n : Nat) : Int))
                  ((s.monW : Int) - (master_size : Int) - 5 * 10)
                  (((s.monH / n : Nat) : Int) - 2 * 10)))

/-- `update_curr()`: walk the active list; the focused cell gets border width
5, focus colour, input focus and a raise, every other cell the unfocus colour. -/
def update_curr (s : WmState) : Except String (List XCall) :=
  match collectCells s.heap s.heap.length (selWs s).first with
  | .error e => .error e
  | .ok cells =>
    .ok (cells.flatMap (fun p =>
      if (selWs s).curr = some p.1 then
        [XCall.setBorderWidth p.2.window 5, XCall.setBorder p.2.window focus_color,
         XCall.setInputFocus p.2.window, XCall.raiseW p.2.window]
      else
        [XCall.setBorder p.2.window unfocus_color]))

/-- `change_workspace(idx)`: return if already there; unmap the current list;
`save_state(curr)`; `update_global(idx)`; map the new list; retile; refocus;
repaint the bar. -/
def change_workspace (s : WmState) (idx : Nat) : Except String (WmState × List XCall) :=
  if idx = s.curW then .ok (s, [])
  else
    match collectCells s.heap s.heap.length (selWs s).first with
    | .error e => .error e
    | .ok oldCells =>
      let t1 := oldCells.map (fun p => XCall.unmapW p.2.window)
      let s1 := save_state s s.curW
      let s2 := update_global s1 idx
      match collectCells s2.heap s2.heap.length (selWs s2).first with
      | .error e => .error e
      | .ok newCells =>
        let t2 := newCells.map (fun p => XCall.mapW p.2.window)
        match tile_screen s2 with
        | .error e => .error e
        | .ok t3 =>
          match update_curr s2 with
          | .error e => .error e
          | .ok t4 => .ok (s2, t1 ++ t2 ++ t3 ++ t4 ++ [XCall.drawBar])

/-- `client_to_workspace(idx)`. Note `tmp2 = arg.workspace_idx` in the
source: the "return to the original workspace" step reloads `idx` itself. -/
def client_to_workspace (s : WmState) (idx : Nat) : Except String (WmState × List XCall) :=
  let tmp := (selWs s).curr
  let tmp2 := idx
  if idx = s.curW ∨ (selWs s).curr = none then .ok (s, [])
  else
    match tmp with
    | none => .ok (s, [])
    | some tm =>
      let s1 := update_global s idx
      match hGet s1.heap tm with
      | none => .error "dangling pointer"
      | some ctm =>
        match add_window s1 ctm.window with
        | .error e => .error e
        | .ok (s2, ta) =>
          let s3 := save_state s2 idx
          let s4 := update_global s3 tmp2
          match (selWs s4).curr with
          | none => .error "null dereference"
          | some cu =>
            match hGet s4.heap cu with
            | none => .error "dangling pointer"
            | some ccu =>
              match remove_window s4 ccu.window with
              | .error e => .error e
              | .ok s5 =>
                match tile_screen s5 with
                | .error e => .error e
                | .ok t1 =>
                  match update_curr s5 with
                  | .error e => .error e
                  | .ok t2 => .ok (s5, ta ++ t1 ++ t2)

/-- `maprequest`: if the window is already in the *active* list, just map it;
otherwise `add_window`, map, retile, refocus. -/
def maprequest (s : WmState) (w : Win) : Except String (WmState × List XCall) :=
  match findWin s.heap w s.heap.length (selWs s).first with
  | .error e => .error e
  | .ok (some _) => .ok (s, [XCall.mapW w])
  | .ok none =>
    match add_window s w with
    | .error e => .error e
    | .ok (s1, ta) =>
      match tile_screen s1 with
      | .error e => .error e
      | .ok t1 =>
        match update_curr s1 with
        | .error e => .error e
        | .ok t2 => .ok (s1, ta ++ [XCall.mapW w] ++ t1 ++ t2)

/-- `destroynotify`: ignore unmanaged windows; otherwise remove, retile, refocus. -/
def destroynotify (s : WmState) (w : Win) : Except String (WmState × List XCall) :=
  match findWin s.heap w s.heap.length (selWs s).first with
  | .error e => .error e
  | .ok none => .ok (s, [])
  | .ok (some _) =>
    match remove_window s w with
    | .error e => .error e
    | .ok s1 =>
      match tile_screen s1 with
      | .error e => .error e
      | .ok t1 =>
        match update_curr s1 with
        | .error e => .error e
        | .ok t2 => .ok (s1, t1 ++ t2)

/-- `enternotify`: ignore the root window; focus the managed client under the pointer. -/
def enternotify (s : WmState) (w : Win) : Except String (WmState × List XCall) :=
  if w = rootwin then .ok (s, [])
  else
    match findWin s.heap w s.heap.length (selWs s).first with
    | .error e => .error e
    | .ok none => .ok (s, [])
    | .ok (some a) =>
      let s1 := setSelCurr s (some a)
      match update_curr s1 with
      | .error e => .error e
      | .ok t => .ok (s1, t)

/-- `move_left`: focus the master. -/
def move_left (s : WmState) : Except String (WmState × List XCall) :=
  if (selWs s).curr = none ∨ (selWs s).first = none then .ok (s, [])
  else
    let s1 := setSelFirst s (selWs s).first
    let s2 := setSelCurr s1 (selWs s1).first
    match update_curr s2 with
    | .error e => .error e
    | .ok t => .ok (s2, t)

/-- `move_right`: from the master, focus the first stacked window. -/
def move_right (s : WmState) : Except String (WmState × List XCall) :=
  match (selWs s).curr, (selWs s).first with
  | some cu, some f =>
    if cu = f then
      match hGet s.heap f with
      | none => .error "dangling pointer"
      | some cf =>
        let s1 := match cf.next with
          | some nx => setSelCurr s (some nx)
          | none => s
        match update_curr s1 with
        | .error e => .error e
        | .ok t => .ok (s1, t)
    else
      match update_curr s with
      | .error e => .error e
      | .ok t => .ok (s, t)
  | _, _ => .ok (s, [])

/-- `move_up`: focus the previous window when not on the master. -/
def move_up (s : WmState) : Except String (WmState × List XCall) :=
  match (selWs s).curr, (selWs s).first with
  | some cu, some f =>
    if cu ≠ f then
      match hGet s.heap cu with
      | none => .error "dangling pointer"
      | some cc =>
        let s1 := match cc.prev with
          | some pv => setSelCurr s (some pv)
          | none => s
        match update_curr s1 with
        | .error e => .error e
        | .ok t => .ok (s1, t)
    else
      match update_curr s with
      | .error e => .error e
      | .ok t => .ok (s, t)
  | _, _ => .ok (s, [])

/-- `move_down`: focus the next window. -/
def move_down (s : WmState) : Except String (WmState × List XCall) :=
  match (selWs s).curr, (selWs s).first with
  | some cu, some _ =>
    match hGet s.heap cu with
    | none => .error "dangling pointer"
    | some cc =>
      let s1 := match cc.next with
        | some nx => setSelCurr s (some nx)
        | none => s
      match update_curr s1 with
      | .error e => .error e
      | .ok t => .ok (s1, t)
  | _, _ => .ok (s, [])

/-- `kill_curr`: send WM_DELETE_WINDOW twice (inline and via `send_kill_signal`). -/
def kill_curr (s : WmState) : Except String (WmState × List XCall) :=
  match (selWs s).curr with
  | none => .ok (s, [])
  | some cu =>
    match hGet s.heap cu with
    | none => .error "dangling pointer"
    | some cc => .ok (s, [XCall.sendKill cc.window, XCall.sendKill cc.window])

/-- `spawn`: external process creation, no window-manager state change. -/
def spawn (s : WmState) : Except String (WmState × List XCall) := .ok (s, [])

/-- `expose`: repaint the bar when the exposed window is the bar with count 0. -/
def expose (s : WmState) (onBar : Bool) : Except String (WmState × List XCall) :=
  .ok (s, if onBar then [XCall.drawBar] else [])

/-- `configurerequest`: honour the request verbatim. -/
def configurerequest (s : WmState) (w : Win) : Except String (WmState × List XCall) :=
  .ok (s, [XCall.configure w])

/-- `configurenotify`: ignored. -/
def configurenotify (s : WmState) : Except String (WmState × List XCall) := .ok (s, [])

/-- `quit`: first call latches the flag (and broadcasts kill messages);
a second call runs the teardown that ends in `die("shutdown")`. -/
def quit (s : WmState) : Except String (WmState × List XCall) :=
  if s.quitFlag then .error "die: shutdown"
  else .ok ({ s with quitFlag := true }, [])

/-- Initial state from `main`: workspaces all `(NULL, NULL)`, workspace 0 active. -/
def initState (mw mh : Nat) : WmState :=
  { heap := [], nextAddr := 1, ws := List.replicate 10 emptyWs, curW := 0,
    monW := mw, monH := mh, quitFlag := false }

/-- One completed event-handler execution: each constructor corresponds to an
entry of the event table or to a command reachable from `keypress` through
the key bindings (workspace indices are the literals 0–9 of `keys[]`). -/
inductive Step : WmState → WmState → Prop where
  | maprequestStep (s s' : WmState) (w : Win) (t : List XCall) :
      maprequest s w = .ok (s', t) → Step s s'
  | destroynotifyStep (s s' : WmState) (w : Win) (t : List XCall) :
      destroynotify s w = .ok (s', t) → Step s s'
  | enternotifyStep (s s' : WmState) (w : Win) (t : List XCall) :
      enternotify s w = .ok (s', t) → Step s s'
  | changeStep (s s' : WmState) (idx : Nat) (t : List XCall) :
      idx < 10 → change_workspace s idx = .ok (s', t) → Step s s'
  | clientToStep (s s' : WmState) (idx : Nat) (t : List XCall) :
      idx < 10 → client_to_workspace s idx = .ok (s', t) → Step s s'
  | moveLeftStep (s s' : WmState) (t : List XCall) :
      move_left s = .ok (s', t) → Step s s'
  | moveRightStep (s s' : WmState) (t : List XCall) :
      move_right s = .ok (s', t) → Step s s'
  | moveUpStep (s s' : WmState) (t : List XCall) :
      move_up s = .ok (s', t) → Step s s'
  | moveDownStep (s s' : WmState) (t : List XCall) :
      move_down s = .ok (s', t) → Step s s'
  | killCurrStep (s s' : WmState) (t : List XCall) :
      kill_curr s = .ok (s', t) → Step s s'
  | spawnStep (s s' : WmState) (t : List XCall) :
      spawn s = .ok (s', t) → Step s s'
  | exposeStep (s s' : WmState) (b : Bool) (t : List XCall) :
      expose s b = .ok (s', t) → Step s s'
  | configurerequestStep (s s' : WmState) (w : Win) (t : List XCall) :
      configurerequest s w = .ok (s', t) → Step s s'
  | configurenotifyStep (s s' : WmState) (t : List XCall) :
      configurenotify s = .ok (s', t) → Step s s'
  | quitStep (s s' : WmState) (t : List XCall) :
      quit s = .ok (s', t) → Step s s'

/-- States reachable from startup by completed event handlers. -/
def Reachable (mw mh : Nat) (s : WmState) : Prop :=
  Relation.ReflTransGen Step (initState mw mh) s

end StupidWM

namespace StupidWM

/-! ## The doubly-linked-list representation predicate

`chainTo h pr o ns pr' o' = true` states that starting the walk at pointer
`o` with previous cell `pr`, the heap `h` contains exactly the cells `ns`
linked as a doubly linked list, after which the walk state is `(pr', o')`.
A complete list is `chainTo h none first ns pm none`. -/

def chainTo (h : HeapT) : Option Addr → Option Addr → List Addr → Option Addr → Option Addr → Bool
  | pr, o, [], pr', o' => pr == pr' && o == o'
  | pr, o, a :: ns, pr', o' =>
    match o with
    | none => false
    | some b =>
      b == a &&
      match hGet h a with
      | none => false
      | some c => (c.prev == pr) && chainTo h (some a) c.next ns pr' o'

theorem chainTo_nil_iff {h : HeapT} {pr o pr' o' : Option Addr} :
    chainTo h pr o [] pr' o' = true ↔ pr' = pr ∧ o' = o := by
  show (pr == pr' && o == o') = true ↔ _
  rw [Bool.and_eq_true, beq_iff_eq, beq_iff_eq]
  constructor
  · rintro ⟨rfl, rfl⟩; exact ⟨rfl, rfl⟩
  · rintro ⟨rfl, rfl⟩; exact ⟨rfl, rfl⟩

theorem chainTo_cons_iff {h : HeapT} {pr o pr' o' : Option Addr} {a : Addr} {ns : List Addr} :
    chainTo h pr o (a :: ns) pr' o' = true ↔
      o = some a ∧ ∃ c, hGet h a = some c ∧ c.prev = pr ∧
        chainTo h (some a) c.next ns pr' o' = true := by
  cases o with
  | none =>
    constructor
    · intro hc; exact absurd hc (by simp [chainTo])
    · rintro ⟨h1, -⟩; cases h1
  | some b =>
    constructor
    · intro hc
      have hc' : (b == a && match hGet h a with
          | none => false
          | some c => (c.prev == pr) && chainTo h (some a) c.next ns pr' o') = true := hc
      rcases Bool.and_eq_true_iff.1 hc' with ⟨hb, hrest⟩
      have hba : b = a := beq_iff_eq.1 hb
      subst hba
      cases hg : hGet h b with
      | none => rw [hg] at hrest; cases hrest
      | some c =>
        rw [hg] at hrest
        rcases Bool.and_eq_true_iff.1 hrest with ⟨hp, hch⟩
        exact ⟨rfl, c, rfl, beq_iff_eq.1 hp, hch⟩
    · rintro ⟨ho, c, hg, hp, hch⟩
      have hba : b = a := Option.some.inj ho
      rw [hba]
      have he : chainTo h pr (some a) (a :: ns) pr' o' =
          (a == a && ((c.prev == pr) && chainTo h (some a) c.next ns pr' o')) := by
        simp only [chainTo, hg]
      rw [he, beq_self_eq_true, Bool.true_and, Bool.and_eq_true]
      exact ⟨beq_iff_eq.2 hp, hch⟩

theorem chainTo_append_iff {h : HeapT} {pr o pr' o' : Option Addr} {l₁ l₂ : List Addr} :
    chainTo h pr o (l₁ ++ l₂) pr' o' = true ↔
      ∃ pm om, chainTo h pr o l₁ pm om = true ∧ chainTo h pm om l₂ pr' o' = true := by
  induction l₁ generalizing pr o with
  | nil =>
    constructor
    · intro hc
      exact ⟨pr, o, chainTo_nil_iff.2 ⟨rfl, rfl⟩, by simpa using hc⟩
    · rintro ⟨pm, om, h1, h2⟩
      rcases chainTo_nil_iff.1 h1 with ⟨rfl, rfl⟩
      simpa using h2
  | cons a l₁ ih =>
    constructor
    · intro hc
      rcases chainTo_cons_iff.1 hc with ⟨rfl, c, hg, hp, hch⟩
      rcases ih.1 hch with ⟨pm, om, h1, h2⟩
      exact ⟨pm, om, chainTo_cons_iff.2 ⟨rfl, c, hg, hp, h1⟩, h2⟩
    · rintro ⟨pm, om, h1, h2⟩
      rcases chainTo_cons_iff.1 h1 with ⟨rfl, c, hg, hp, hch⟩
      exact chainTo_cons_iff.2 ⟨rfl, c, hg, hp, ih.2 ⟨pm, om, hch, h2⟩⟩

theorem chainTo_congr {h h' : HeapT} {pr o pr' o' : Option Addr} {ns : List Addr}
    (hsame : ∀ a ∈ ns, hGet h' a = hGet h a) :
    (chainTo h' pr o ns pr' o' = true) ↔ (chainTo h pr o ns pr' o' = true) := by
  induction ns generalizing pr o with
  | nil => exact Iff.rfl
  | cons a ns ih =>
    rw [chainTo_cons_iff, chainTo_cons_iff, hsame a (by simp)]
    constructor
    · rintro ⟨rfl, c, hg, hp, hch⟩
      exact ⟨rfl, c, hg, hp, (ih (fun x hx => hsame x (by simp [hx]))).1 hch⟩
    · rintro ⟨rfl, c, hg, hp, hch⟩
      exact ⟨rfl, c, hg, hp, (ih (fun x hx => hsame x (by simp [hx]))).2 hch⟩

theorem chainTo_mem_isSome {h : HeapT} {pr o pr' o' : Option Addr} {ns : List Addr}
    (hc : chainTo h pr o ns pr' o' = true) {a : Addr} (ha : a ∈ ns) :
    (hGet h a).isSome := by
  induction ns generalizing pr o with
  | nil => cases ha
  | cons b ns ih =>
    rcases chainTo_cons_iff.1 hc with ⟨rfl, c, hg, -, hch⟩
    rcases List.mem_cons.1 ha with rfl | ha
    · simp [hg]
    · exact ih hch ha

theorem chainTo_cellOf {h : HeapT} {pr o pr' o' : Option Addr} {ns : List Addr}
    (hc : chainTo h pr o ns pr' o' = true) {a : Addr} (ha : a ∈ ns) :
    hGet h a = some (cellOf h a) := by
  have hs := chainTo_mem_isSome hc ha
  cases hg : hGet h a with
  | none => rw [hg] at hs; cases hs
  | some c => simp [cellOf, hg]

end StupidWM

namespace StupidWM

/-! ## Heap update lemmas -/

theorem hGet_hSet_ne {h : HeapT} {a b : Addr} {c : Client} (hne : b ≠ a) :
    hGet (hSet h a c) b = hGet h b := by
  induction h with
  | nil => rfl
  | cons p t ih =>
    obtain ⟨x, cx⟩ := p
    by_cases hx : x = a
    · subst hx
      have hxb : ¬ x = b := fun hh => hne hh.symm
      simp [hSet, hGet, hxb]
    · simp only [hSet, if_neg hx, hGet]
      by_cases hxb : x = b
      · simp [hxb]
      · simp [hxb, ih]

theorem hGet_hSet_self {h : HeapT} {a : Addr} {c : Client}
    (hs : (hGet h a).isSome) : hGet (hSet h a c) a = some c := by
  induction h with
  | nil => simp [hGet] at hs
  | cons p t ih =>
    obtain ⟨x, cx⟩ := p
    by_cases hx : x = a
    · subst hx
      simp [hSet, hGet]
    · simp only [hSet, if_neg hx, hGet, if_neg hx]
      simp only [hGet, if_neg hx] at hs
      exact ih hs

theorem hGet_hFree {h : HeapT} {a b : Addr} :
    hGet (hFree h a) b = if b = a then none else hGet h b := by
  induction h with
  | nil => simp [hFree, hGet]
  | cons p t ih =>
    obtain ⟨x, cx⟩ := p
    by_cases hx : x = a
    · subst hx
      have hun : hFree ((x, cx) :: t) x = hFree t x := by
        simp [hFree]
      rw [hun, ih]
      by_cases hb : b = x
      · simp [hb]
      · simp only [if_neg hb, hGet]
        rw [if_neg (fun hh : x = b => hb hh.symm)]
    · simp only [hFree, if_neg hx, hGet]
      by_cases hxb : x = b
      · have hba : ¬ b = a := by
          rw [← hxb]
          exact hx
        simp [hxb, hba]
      · simp [hxb, ih]

theorem length_hSet {h : HeapT} {a : Addr} {c : Client} :
    (hSet h a c).length = h.length := by
  induction h with
  | nil => rfl
  | cons p t ih =>
    obtain ⟨x, cx⟩ := p
    by_cases hx : x = a <;> simp [hSet, hx, ih]

theorem hGet_isSome_mem_keys {h : HeapT} {a : Addr} (hs : (hGet h a).isSome) :
    a ∈ h.map Prod.fst := by
  induction h with
  | nil => simp [hGet] at hs
  | cons p t ih =>
    obtain ⟨x, cx⟩ := p
    by_cases hx : x = a
    · simp [hx]
    · simp only [hGet, if_neg hx] at hs
      simp [ih hs]

theorem keys_hSet {h : HeapT} {a : Addr} {c : Client} :
    (hSet h a c).map Prod.fst = h.map Prod.fst := by
  induction h with
  | nil => rfl
  | cons p t ih =>
    obtain ⟨x, cx⟩ := p
    by_cases hx : x = a <;> simp [hSet, hx, ih]

theorem bound_hSet {h : HeapT} {a : Addr} {c : Client} {n : Addr}
    (hb : ∀ p ∈ h, p.1 < n) : ∀ q ∈ hSet h a c, q.1 < n := by
  intro q hq
  have hk : q.1 ∈ h.map Prod.fst := by
    rw [← keys_hSet (a := a) (c := c)]
    exact List.mem_map_of_mem _ hq
  rcases List.mem_map.1 hk with ⟨p, hp, he⟩
  exact he ▸ hb p hp

theorem mem_hFree {h : HeapT} {a : Addr} {q : Addr × Client} (hq : q ∈ hFree h a) : q ∈ h := by
  induction h with
  | nil => simp [hFree] at hq
  | cons p t ih =>
    obtain ⟨x, cx⟩ := p
    by_cases hx : x = a
    · simp only [hFree, if_pos hx] at hq
      exact List.mem_cons_of_mem _ (ih hq)
    · simp only [hFree, if_neg hx] at hq
      rcases List.mem_cons.1 hq with rfl | hq
      · simp
      · exact List.mem_cons_of_mem _ (ih hq)

/-- Addresses on a chain are bounded by the heap size (used to discharge
the fuel of the C list walks). -/
theorem chain_length_le {h : HeapT} {pr o pr' o' : Option Addr} {ns : List Addr}
    (hc : chainTo h pr o ns pr' o' = true) (hnd : ns.Nodup) : ns.length ≤ h.length := by
  have hsub : ns ⊆ h.map Prod.fst := fun a ha =>
    hGet_isSome_mem_keys (chainTo_mem_isSome hc ha)
  calc ns.length ≤ (h.map Prod.fst).length := (List.subperm_of_subset hnd hsub).length_le
  _ = h.length := List.length_map _ _

/-! ## Traversal specifications -/

theorem collectCells_spec {h : HeapT} {pr o pr' : Option Addr} {ns : List Addr}
    (hc : chainTo h pr o ns pr' none = true) :
    ∀ {fuel : Nat}, ns.length ≤ fuel →
      collectCells h fuel o = .ok (ns.map (fun a => (a, cellOf h a))) := by
  induction ns generalizing pr o with
  | nil =>
    intro fuel _
    rcases chainTo_nil_iff.1 hc with ⟨-, ho⟩
    rw [← ho]
    cases fuel <;> rfl
  | cons a ns ih =>
    intro fuel hf
    rcases chainTo_cons_iff.1 hc with ⟨rfl, c, hg, -, hch⟩
    match fuel, hf with
    | fuel + 1, hf =>
      have hco : cellOf h a = c := by simp [cellOf, hg]
      simp only [collectCells, hg, ih hch (by simpa using Nat.le_of_succ_le_succ hf), Except.map,
        List.map_cons, hco]

theorem findWin_spec {h : HeapT} {w : Win} {pr o pr' : Option Addr} {ns : List Addr}
    (hc : chainTo h pr o ns pr' none = true) :
    ∀ {fuel : Nat}, ns.length ≤ fuel →
      findWin h w fuel o = .ok (ns.find? (fun a => winOf h a == w)) := by
  induction ns generalizing pr o with
  | nil =>
    intro fuel _
    rcases chainTo_nil_iff.1 hc with ⟨-, ho⟩
    rw [← ho]
    cases fuel <;> rfl
  | cons a ns ih =>
    intro fuel hf
    rcases chainTo_cons_iff.1 hc with ⟨rfl, c, hg, -, hch⟩
    match fuel, hf with
    | fuel + 1, hf =>
      have hco : winOf h a = c.window := by simp [winOf, cellOf, hg]
      by_cases hw : c.window = w
      · simp only [findWin, hg, if_pos hw, List.find?]
        rw [show (winOf h a == w) = true from beq_iff_eq.2 (hco ▸ hw)]
      · simp only [findWin, hg, if_neg hw, List.find?]
        rw [show (winOf h a == w) = false from beq_eq_false_iff_ne.2 (hco ▸ hw)]
        exact ih hch (by simpa using Nat.le_of_succ_le_succ hf)

theorem lastAddr_spec {h : HeapT} {pr pr' : Option Addr} {f : Addr} {ns : List Addr} {l : Addr}
    (hc : chainTo h pr (some f) ns pr' none = true) (hl : ns.getLast? = some l) :
    ∀ {fuel : Nat}, ns.length ≤ fuel → lastAddr h fuel f = .ok l := by
  induction ns generalizing pr f with
  | nil => cases hl
  | cons a ns ih =>
    intro fuel hf
    rcases chainTo_cons_iff.1 hc with ⟨ha, c, hg, -, hch⟩
    injection ha with ha
    subst ha
    match fuel, hf with
    | fuel + 1, hf =>
      match ns, hch, hl with
      | [], hch, hl =>
        rcases chainTo_nil_iff.1 hch with ⟨-, ho⟩
        have hfl : f = l := by
          simpa using hl
        have hnx : c.next = none := ho.symm
        subst hfl
        simp [lastAddr, hg, hnx]
      | b :: ns, hch, hl =>
        have hb : c.next = some b := (chainTo_cons_iff.1 hch).1
        have hl' : (b :: ns).getLast? = some l := by
          rw [← hl]
          exact (List.getLast?_cons_cons ..).symm
        rw [hb] at hch
        simp only [lastAddr, hg, hb]
        exact ih hch hl' (by simpa using Nat.le_of_succ_le_succ hf)

end StupidWM

namespace StupidWM

/-! ## Structure of complete chains -/

theorem chainTo_head_eq {h : HeapT} {pr pm : Option Addr} {f : Addr} {ns : List Addr}
    (hc : chainTo h pr (some f) ns pm none = true) : ∃ ns', ns = f :: ns' := by
  cases ns with
  | nil =>
    rcases chainTo_nil_iff.1 hc with ⟨-, ho⟩
    cases ho
  | cons x ns =>
    rcases chainTo_cons_iff.1 hc with ⟨hx, -⟩
    exact ⟨ns, by rw [Option.some.inj hx]⟩

theorem chainTo_next_mem {h : HeapT} {pr o pm : Option Addr} {ns : List Addr}
    (hc : chainTo h pr o ns pm none = true) {a b : Addr}
    (ha : a ∈ ns) (hb : (cellOf h a).next = some b) : b ∈ ns := by
  induction ns generalizing pr o with
  | nil => cases ha
  | cons x ns ih =>
    rcases chainTo_cons_iff.1 hc with ⟨rfl, c, hg, -, hch⟩
    rcases List.mem_cons.1 ha with rfl | ha
    · have hcc : cellOf h a = c := by simp [cellOf, hg]
      rw [hcc] at hb
      cases ns with
      | nil =>
        rcases chainTo_nil_iff.1 hch with ⟨-, ho⟩
        rw [hb] at ho
        cases ho
      | cons y ns' =>
        have hy : c.next = some y := (chainTo_cons_iff.1 hch).1
        rw [hb] at hy
        rw [Option.some.inj hy]
        simp
    · exact List.mem_cons_of_mem _ (ih hch ha)

theorem chainTo_prev_mem {h : HeapT} {pr o pm : Option Addr} {ns : List Addr}
    (hc : chainTo h pr o ns pm none = true) {a p : Addr}
    (ha : a ∈ ns) (hp : (cellOf h a).prev = some p) : some p = pr ∨ p ∈ ns := by
  induction ns generalizing pr o with
  | nil => cases ha
  | cons x ns ih =>
    rcases chainTo_cons_iff.1 hc with ⟨rfl, c, hg, hcp, hch⟩
    rcases List.mem_cons.1 ha with rfl | ha
    · have hcc : cellOf h a = c := by simp [cellOf, hg]
      rw [hcc] at hp
      exact Or.inl (hp ▸ hcp ▸ rfl)
    · rcases ih hch ha with hx | hmem
      · exact Or.inr (by rw [← Option.some.inj hx]; simp)
      · exact Or.inr (List.mem_cons_of_mem _ hmem)

/-! ## Workspace-array helpers -/

theorem getD_set_self {l : List Workspace} {k : Nat} (hk : k < l.length) {v : Workspace} :
    (l.set k v).getD k emptyWs = v := by
  simp [List.getD]
  rw [List.getElem?_set_self']
  simp [List.getElem?_eq_getElem hk]

theorem getD_set_ne {l : List Workspace} {k j : Nat} (hjk : j ≠ k) {v : Workspace} :
    (l.set k v).getD j emptyWs = l.getD j emptyWs := by
  simp [List.getD]
  rw [List.getElem?_set_ne (fun hh => hjk hh.symm)]

theorem getWs_ge_len {s : WmState} {k : Nat} (hk : s.ws.length ≤ k) : getWs s k = emptyWs := by
  simp [getWs, List.getD, List.getElem?_eq_none hk]

theorem flatMap_map_comp {α β γ : Type} (l : List α) (f : α → β) (g : β → List γ) :
    (l.map f).flatMap g = l.flatMap (fun a => g (f a)) := by
  induction l with
  | nil => rfl
  | cons a l ih => simp [ih]

/-! ## Derived specifications of the layout and focus operations -/

theorem tile_screen_empty {s : WmState} (hf : (selWs s).first = none) :
    tile_screen s = .ok [] := by
  simp [tile_screen, hf]

theorem tile_screen_single {s : WmState} {f : Addr} {c : Client}
    (hf : (selWs s).first = some f) (hg : hGet s.heap f = some c) (hnx : c.next = none) :
    tile_screen s = .ok [XCall.moveResize c.window 10 30
      ((s.monW : Int) - 3 * 10) ((s.monH : Int) - 3 * 10)] := by
  simp [tile_screen, hf, hg, hnx]

theorem update_curr_spec {s : WmState} {ns : List Addr} {pm : Option Addr}
    (hc : chainTo s.heap none (selWs s).first ns pm none = true)
    (hlen : ns.length ≤ s.heap.length) :
    update_curr s = .ok (ns.flatMap (fun a =>
      if (selWs s).curr = some a then
        [XCall.setBorderWidth (winOf s.heap a) 5, XCall.setBorder (winOf s.heap a) focus_color,
         XCall.setInputFocus (winOf s.heap a), XCall.raiseW (winOf s.heap a)]
      else
        [XCall.setBorder (winOf s.heap a) unfocus_color])) := by
  rw [update_curr, collectCells_spec hc hlen]
  exact congrArg Except.ok (by rw [flatMap_map_comp]; rfl)

theorem update_curr_ok {s : WmState} {ns : List Addr} {pm : Option Addr}
    (hc : chainTo s.heap none (selWs s).first ns pm none = true)
    (hlen : ns.length ≤ s.heap.length) :
    ∃ t, update_curr s = .ok t :=
  ⟨_, update_curr_spec hc hlen⟩

theorem tile_screen_ok {s : WmState} {ns : List Addr} {pm : Option Addr}
    (hc : chainTo s.heap none (selWs s).first ns pm none = true)
    (hlen : ns.length ≤ s.heap.length) :
    ∃ t, tile_screen s = .ok t := by
  cases hf : (selWs s).first with
  | none => exact ⟨[], tile_screen_empty hf⟩
  | some f =>
    rw [hf] at hc
    rcases chainTo_head_eq hc with ⟨ns', rfl⟩
    rcases chainTo_cons_iff.1 hc with ⟨-, c, hg, -, hch⟩
    cases hnx : c.next with
    | none => exact ⟨_, tile_screen_single hf hg hnx⟩
    | some nx =>
      have hlen' : ns'.length ≤ s.heap.length := le_trans (by simp) hlen
      have hcoll := collectCells_spec hch hlen'
      rw [hnx] at hcoll
      simp only [tile_screen, hf, hg, hnx, hcoll]
      exact ⟨_, rfl⟩

end StupidWM

namespace StupidWM

theorem winsOf_congr {h h' : HeapT} {ns : List Addr}
    (hsame : ∀ a ∈ ns, hGet h' a = hGet h a) : winsOf h' ns = winsOf h ns := by
  simp only [winsOf]
  exact List.map_congr_left (fun a ha => by simp [winOf, cellOf, hsame a ha])

theorem chainTo_pm_eq {h : HeapT} {pr o pm om : Option Addr} {ns : List Addr}
    (hc : chainTo h pr o ns pm om = true) :
    pm = (match ns.getLast? with | none => pr | some l => some l) := by
  induction ns generalizing pr o with
  | nil => exact (chainTo_nil_iff.1 hc).1
  | cons a ns ih =>
    rcases chainTo_cons_iff.1 hc with ⟨rfl, c, -, -, hch⟩
    cases ns with
    | nil =>
      simpa using (chainTo_nil_iff.1 hch).1
    | cons b ns' =>
      have := ih hch
      simpa [List.getLast?_cons_cons] using this

/-- The two field writes `SEL_MONITOR_WS.first = o; SEL_MONITOR_WS.curr = o2`
amount to storing the pair in the active slot. -/
theorem setSel_pair {s : WmState} (hlt : s.curW < s.ws.length) (o o2 : Option Addr) :
    setSelCurr (setSelFirst s o) o2 = { s with ws := s.ws.set s.curW ⟨o, o2⟩ } := by
  have hsel : selWs (setSelFirst s o) = { selWs s with first := o } := by
    simp only [setSelFirst, selWs, getWs]
    exact getD_set_self hlt
  simp only [setSelCurr]
  rw [hsel]
  simp only [setSelFirst]
  simp only [List.set_set]

/-- A single `SEL_MONITOR_WS.curr = o2` write. -/
theorem setSelCurr_eq {s : WmState} (o2 : Option Addr) :
    setSelCurr s o2 = { s with ws := s.ws.set s.curW ⟨(selWs s).first, o2⟩ } := rfl

end StupidWM

namespace StupidWM

theorem getLast?_mem_list {α : Type} {l : List α} {a : α} (h : l.getLast? = some a) : a ∈ l := by
  rcases List.mem_getLast?_eq_getLast (show a ∈ l.getLast? by rw [Option.mem_def, h]) with ⟨hne, he⟩
  exact he ▸ List.getLast_mem hne

/-! ## Specification of `add_window` -/

theorem add_window_spec_empty {s : WmState} (hf : (selWs s).first = none)
    (hlt : s.curW < s.ws.length) (w : Win) :
    add_window s w = .ok ({ s with
        heap := (s.nextAddr, (⟨none, none, w⟩ : Client)) :: s.heap,
        nextAddr := s.nextAddr + 1,
        ws := s.ws.set s.curW ⟨some s.nextAddr, some s.nextAddr⟩ }, [XCall.selectInput w]) := by
  simp only [add_window, hf]
  rw [setSel_pair (by exact hlt)]

theorem add_window_spec_cons {s : WmState} {f l : Addr} {ns : List Addr} {pm : Option Addr}
    (hf : (selWs s).first = some f)
    (hc : chainTo s.heap none (some f) ns pm none = true)
    (hl : ns.getLast? = some l)
    (hlen : ns.length ≤ s.heap.length)
    (hbound : ∀ p ∈ s.heap, p.1 < s.nextAddr)
    (w : Win) :
    add_window s w = .ok ({ s with
        heap := hSet ((s.nextAddr, (⟨none, some l, w⟩ : Client)) :: s.heap) l
          { cellOf s.heap l with next := some s.nextAddr },
        nextAddr := s.nextAddr + 1,
        ws := s.ws.set s.curW ⟨(selWs s).first, some s.nextAddr⟩ }, [XCall.selectInput w]) := by
  have hla := lastAddr_spec hc hl hlen
  have hmem : l ∈ ns := getLast?_mem_list hl
  have hgl : hGet s.heap l = some (cellOf s.heap l) := chainTo_cellOf hc hmem
  have hlne : ¬ s.nextAddr = l := by
    intro he
    have hk := hGet_isSome_mem_keys (h := s.heap) (a := l) (by simp [hgl])
    rcases List.mem_map.1 hk with ⟨p, hp, hpe⟩
    have hlt := hbound p hp
    rw [hpe, he] at hlt
    exact lt_irrefl l hlt
  have hh1 : hGet ((s.nextAddr, (⟨none, some l, w⟩ : Client)) :: s.heap) l
      = some (cellOf s.heap l) := by
    simp only [hGet, if_neg hlne]
    exact hgl
  simp only [add_window, hf, hla, hh1]
  rw [setSelCurr_eq]
  have hf2 : (s.ws[s.curW]?.getD emptyWs).first = some f := by
    have hh := hf
    simp only [selWs, getWs, List.getD, List.get?_eq_getElem?] at hh
    exact hh
  simp [selWs, getWs, hf2]

/-- After the tail append of `add_window`, the chain is the old chain with
the fresh address appended. -/
theorem add_chain {h : HeapT} {pr : Option Addr} {f l a2 : Addr} {ns : List Addr}
    {pm : Option Addr} {w : Win}
    (hc : chainTo h pr (some f) ns pm none = true)
    (hl : ns.getLast? = some l) (hnd : ns.Nodup)
    (hfresh : ∀ b ∈ ns, b ≠ a2) :
    chainTo (hSet ((a2, (⟨none, some l, w⟩ : Client)) :: h) l
        { cellOf h l with next := some a2 })
      pr (some f) (ns ++ [a2]) (some a2) none = true := by
  induction ns generalizing pr f with
  | nil => cases hl
  | cons x ns' ih =>
    rcases chainTo_cons_iff.1 hc with ⟨hx, c, hg, hcp, hch⟩
    have hxf : x = f := (Option.some.inj hx).symm
    subst hxf
    have hxa2 : x ≠ a2 := hfresh x (by simp)
    cases ns' with
    | nil =>
      have hlx : l = x := by simpa using hl.symm
      subst hlx
      rcases chainTo_nil_iff.1 hch with ⟨hpm, hnone⟩
      have hcl : cellOf h l = c := by simp [cellOf, hg]
      have hgl1 : hGet ((a2, (⟨none, some l, w⟩ : Client)) :: h) l = some c := by
        simp only [hGet, if_neg (show ¬ a2 = l from fun hh => hxa2 hh.symm)]
        exact hg
      apply chainTo_cons_iff.2
      refine ⟨rfl, { c with next := some a2 }, ?_, hcp, ?_⟩
      · rw [hcl]
        exact hGet_hSet_self (by simp [hgl1])
      · apply chainTo_cons_iff.2
        refine ⟨rfl, ⟨none, some l, w⟩, ?_, by simp, chainTo_nil_iff.2 ⟨rfl, rfl⟩⟩
        rw [hGet_hSet_ne hxa2.symm]
        simp [hGet]
    | cons y ns'' =>
      have hl' : (y :: ns'').getLast? = some l := by
        rw [← hl]
        exact (List.getLast?_cons_cons ..).symm
      have hxl : x ≠ l := by
        intro he
        exact (List.nodup_cons.1 hnd).1 (he ▸ getLast?_mem_list hl')
      have hy : c.next = some y := (chainTo_cons_iff.1 hch).1
      apply chainTo_cons_iff.2
      refine ⟨rfl, c, ?_, hcp, ?_⟩
      · rw [hGet_hSet_ne hxl]
        simp only [hGet, if_neg (show ¬ a2 = x from fun hh => hxa2 hh.symm)]
        exact hg
      · rw [hy] at hch ⊢
        exact ih hch hl' (List.nodup_cons.1 hnd).2 (fun b hb => hfresh b (by simp [hb]))
end StupidWM

namespace StupidWM

/-! ## Specification of `remove_window` -/

theorem hSet_nomem {h : HeapT} {a : Addr} {c : Client} (hg : hGet h a = none) :
    hSet h a c = h := by
  induction h with
  | nil => rfl
  | cons p t ih =>
    obtain ⟨x, cx⟩ := p
    by_cases hx : x = a
    · subst hx
      simp [hGet] at hg
    · simp only [hGet, if_neg hx] at hg
      simp [hSet, hx, ih hg]

theorem winOf_hSet_same {h : HeapT} {a b : Addr} {c : Client}
    (hwin : c.window = winOf h a) : winOf (hSet h a c) b = winOf h b := by
  by_cases hba : b = a
  · subst hba
    cases hg : hGet h b with
    | none => rw [hSet_nomem hg]
    | some cb =>
      have : hGet (hSet h b c) b = some c := hGet_hSet_self (by simp [hg])
      simp [winOf, cellOf, this, hwin, winOf]
  · simp [winOf, cellOf, hGet_hSet_ne hba]

theorem remove_scan_skip {s : WmState} {w : Win} {pr o pm : Option Addr}
    {pre : List Addr} {x : Addr}
    (hc : chainTo s.heap pr o pre pm (some x) = true)
    (hw : ∀ a ∈ pre, winOf s.heap a ≠ w) :
    ∀ {fuel : Nat}, pre.length ≤ fuel →
      remove_scan w fuel s o = remove_scan w (fuel - pre.length) s (some x) := by
  induction pre generalizing pr o with
  | nil =>
    intro fuel _
    rcases chainTo_nil_iff.1 hc with ⟨-, ho⟩
    rw [← ho]
    simp
  | cons a pre ih =>
    intro fuel hf
    rcases chainTo_cons_iff.1 hc with ⟨rfl, c, hg, -, hch⟩
    match fuel, hf with
    | fuel + 1, hf =>
      have hwa : ¬ c.window = w := by
        have hha := hw a (by simp)
        simpa [winOf, cellOf, hg] using hha
      simp only [remove_scan, hg, if_neg hwa]
      rw [show fuel + 1 - (a :: pre).length = fuel - pre.length from by
        simp only [List.length_cons]
        omega]
      exact ih hch (fun b hb => hw b (by simp [hb])) (Nat.le_of_succ_le_succ hf)

theorem remove_scan_nomatch {s : WmState} {w : Win} {pr o pm : Option Addr} {ms : List Addr}
    (hc : chainTo s.heap pr o ms pm none = true)
    (hw : ∀ a ∈ ms, winOf s.heap a ≠ w) :
    ∀ {fuel : Nat}, ms.length ≤ fuel → remove_scan w fuel s o = .ok s := by
  induction ms generalizing pr o with
  | nil =>
    intro fuel _
    rcases chainTo_nil_iff.1 hc with ⟨-, ho⟩
    rw [← ho]
    cases fuel <;> rfl
  | cons a ms ih =>
    intro fuel hf
    rcases chainTo_cons_iff.1 hc with ⟨rfl, c, hg, -, hch⟩
    match fuel, hf with
    | fuel + 1, hf =>
      have hwa : ¬ c.window = w := by
        have hha := hw a (by simp)
        simpa [winOf, cellOf, hg] using hha
      simp only [remove_scan, hg, if_neg hwa]
      exact ih hch (fun b hb => hw b (by simp [hb])) (Nat.le_of_succ_le_succ hf)

theorem remove_window_spec_single {s : WmState} {x : Addr} {c : Client} {w : Win}
    (hf : (selWs s).first = some x)
    (hg : hGet s.heap x = some c)
    (hw : c.window = w)
    (hprev : c.prev = none) (hnext : c.next = none)
    (hlt : s.curW < s.ws.length) :
    remove_window s w = .ok ({ s with
        heap := hFree s.heap x,
        ws := s.ws.set s.curW ⟨none, none⟩ } : WmState) := by
  rw [remove_window, hf]
  simp only [remove_scan, hg, if_pos hw, hprev, hnext, hf]
  rw [setSel_pair (by exact hlt)]

end StupidWM

namespace StupidWM

theorem eq_dropLast_append {α : Type} {l : List α} {a : α} (h : l.getLast? = some a) :
    l = l.dropLast ++ [a] := by
  have hne : l ≠ [] := by
    intro he
    rw [he] at h
    cases h
  have hg : l.getLast hne = a := by
    have := List.getLast?_eq_getLast_of_ne_nil hne
    rw [h] at this
    exact (Option.some.inj this).symm
  rw [← hg]
  exact (List.dropLast_append_getLast hne).symm

/-- Unlinking the head: the tail with its `prev` cleared is again a chain. -/
theorem head_chain {h : HeapT} {x nx : Addr} {suf : List Addr} {pm : Option Addr}
    (hsuf : chainTo h (some x) (some nx) suf pm none = true)
    (hnd : suf.Nodup) :
    chainTo (hSet h nx { cellOf h nx with prev := none }) none (some nx) suf pm none = true := by
  rcases chainTo_head_eq hsuf with ⟨suf', rfl⟩
  rcases chainTo_cons_iff.1 hsuf with ⟨-, cn, hgn, -, hch⟩
  have hcell : cellOf h nx = cn := by simp [cellOf, hgn]
  apply chainTo_cons_iff.2
  refine ⟨rfl, { cellOf h nx with prev := none }, hGet_hSet_self (by simp [hgn]), rfl, ?_⟩
  have hnotmem : nx ∉ suf' := (List.nodup_cons.1 hnd).1
  rw [hcell]
  exact (chainTo_congr (fun b hb =>
    hGet_hSet_ne (show b ≠ nx from fun he => hnotmem (he ▸ hb)))).2 hch

/-- After the middle-unlink writes, the suffix starting at `nx` is a chain
whose previous cell is `pv`. -/
theorem mid_chain_cont {h : HeapT} {x pv nx : Addr} {suf : List Addr} {pm : Option Addr}
    (hsuf : chainTo h (some x) (some nx) suf pm none = true)
    (hnd : suf.Nodup) (hpv : pv ∉ suf) :
    chainTo (hSet (hSet h pv { cellOf h pv with next := some nx }) nx
        { cellOf h nx with prev := some pv }) (some pv) (some nx) suf pm none = true := by
  rcases chainTo_head_eq hsuf with ⟨suf', rfl⟩
  rcases chainTo_cons_iff.1 hsuf with ⟨-, cn, hgn, -, hch⟩
  have hnxpv : nx ≠ pv := fun he => hpv (he ▸ List.mem_cons_self nx suf')
  have hcell : cellOf h nx = cn := by simp [cellOf, hgn]
  have hg1 : hGet (hSet h pv { cellOf h pv with next := some nx }) nx = some cn := by
    rw [hGet_hSet_ne hnxpv]
    exact hgn
  apply chainTo_cons_iff.2
  refine ⟨rfl, { cellOf h nx with prev := some pv }, hGet_hSet_self (by simp [hg1]), rfl, ?_⟩
  have hnotmem : nx ∉ suf' := (List.nodup_cons.1 hnd).1
  rw [hcell]
  refine (chainTo_congr (fun b hb => ?_)).2 hch
  rw [hGet_hSet_ne (show b ≠ nx from fun he => hnotmem (he ▸ hb)),
    hGet_hSet_ne (show b ≠ pv from fun he => hpv (he ▸ List.mem_cons_of_mem _ hb))]

/-- After the middle-unlink writes, the prefix still chains from the head,
now continuing to `nx`. -/
theorem mid_chain_pre {h : HeapT} {o : Option Addr} {pv nx x : Addr} {pre : List Addr}
    (hpre : chainTo h none o pre (some pv) (some x) = true)
    (hnd : pre.Nodup) (hnx : nx ∉ pre) :
    chainTo (hSet (hSet h pv { cellOf h pv with next := some nx }) nx
        { cellOf h nx with prev := some pv }) none o pre (some pv) (some nx) = true := by
  have hlast : pre.getLast? = some pv := by
    have := chainTo_pm_eq hpre
    cases hl : pre.getLast? with
    | none => rw [hl] at this; cases this
    | some l => rw [hl] at this; rw [Option.some.inj this]
  have hpvmem : pv ∈ pre := getLast?_mem_list hlast
  have hdecomp := eq_dropLast_append hlast
  have hpvnx : pv ≠ nx := fun he => hnx (he ▸ hpvmem)
  have hgpv : hGet h pv = some (cellOf h pv) := chainTo_cellOf hpre hpvmem
  have hnd0 : pre.dropLast.Nodup := by
    rw [hdecomp] at hnd
    exact hnd.sublist (List.sublist_append_left _ _)
  have hpv0 : pv ∉ pre.dropLast := by
    rw [hdecomp] at hnd
    intro hmem
    rcases List.nodup_append.1 hnd with ⟨-, -, hdisj⟩
    exact hdisj hmem (by simp)
  rw [hdecomp] at hpre
  rcases chainTo_append_iff.1 hpre with ⟨pq, oq, h0, h1⟩
  rcases chainTo_cons_iff.1 h1 with ⟨hoq, cpv, hgpv', hcprev, hcont⟩
  rcases chainTo_nil_iff.1 hcont with ⟨-, hnxt⟩
  have hcpv : cellOf h pv = cpv := by simp [cellOf, hgpv']
  rw [hdecomp]
  apply chainTo_append_iff.2
  refine ⟨pq, oq, ?_, ?_⟩
  · refine (chainTo_congr (fun b hb => ?_)).2 h0
    have hbpre : b ∈ pre := by
      rw [hdecomp]
      exact List.mem_append_left _ hb
    rw [hGet_hSet_ne (show b ≠ nx from fun he => hnx (he ▸ hbpre)),
      hGet_hSet_ne (show b ≠ pv from fun he => hpv0 (he ▸ hb))]
  · apply chainTo_cons_iff.2
    refine ⟨hoq, { cellOf h pv with next := some nx }, ?_, by rw [hcpv]; exact hcprev, ?_⟩
    · rw [hGet_hSet_ne hpvnx]
      exact hGet_hSet_self (by simp [hgpv])
    · exact chainTo_nil_iff.2 ⟨rfl, rfl⟩

end StupidWM

namespace StupidWM

theorem setSel_pair_gen {s : WmState} (hlt : s.curW < s.ws.length) (o o2 : Option Addr)
    (hp : HeapT) :
    setSelCurr { setSelFirst s o with heap := hp } o2 =
      { s with heap := hp, ws := s.ws.set s.curW ⟨o, o2⟩ } := by
  have hsel : selWs { setSelFirst s o with heap := hp } =
      { first := o, curr := (selWs s).curr } := by
    simp only [selWs, getWs, setSelFirst]
    exact getD_set_self hlt
  simp only [setSelCurr]
  rw [hsel]
  simp only [setSelFirst]
  simp only [List.set_set]

theorem remove_window_spec_head {s : WmState} {x nx : Addr} {c : Client} {w : Win}
    {suf : List Addr} {pm : Option Addr}
    (hf : (selWs s).first = some x)
    (hg : hGet s.heap x = some c)
    (hw : c.window = w)
    (hprev : c.prev = none) (hnext : c.next = some nx)
    (hsuf : chainTo s.heap (some x) (some nx) suf pm none = true)
    (hnd : suf.Nodup)
    (hnomatch : ∀ a ∈ suf, winOf s.heap a ≠ w)
    (hlen : suf.length ≤ s.heap.length)
    (hlt : s.curW < s.ws.length) :
    remove_window s w = .ok ({ s with
        heap := hSet s.heap nx { cellOf s.heap nx with prev := none },
        ws := s.ws.set s.curW ⟨some nx, some nx⟩ } : WmState) := by
  rcases chainTo_head_eq hsuf with ⟨suf', hsufeq⟩
  have hgn : hGet s.heap nx = some (cellOf s.heap nx) :=
    chainTo_cellOf hsuf (hsufeq ▸ List.mem_cons_self nx suf')
  have hgn1 : hGet (setSelFirst s (some nx)).heap nx = some (cellOf s.heap nx) := hgn
  rw [remove_window, hf]
  simp only [remove_scan, hg, if_pos hw, hprev, hnext, hgn1]
  rw [setSel_pair_gen hlt]
  have hchain2 : chainTo (hSet s.heap nx { cellOf s.heap nx with prev := none })
      none (some nx) suf pm none = true := head_chain hsuf hnd
  have hnm2 : ∀ a ∈ suf, winOf (hSet s.heap nx { cellOf s.heap nx with prev := none }) a ≠ w :=
    fun a ha => by
      rw [winOf_hSet_same (show ({ cellOf s.heap nx with prev := none } : Client).window
        = winOf s.heap nx from rfl)]
      exact hnomatch a ha
  exact remove_scan_nomatch (s := { s with
      heap := hSet s.heap nx { cellOf s.heap nx with prev := none },
      ws := s.ws.set s.curW ⟨some nx, some nx⟩ }) hchain2 hnm2 hlen

theorem remove_window_spec_middle {s : WmState} {x pv nx : Addr} {c : Client} {w : Win}
    {pre suf : List Addr} {pm : Option Addr}
    (hpre : chainTo s.heap none (selWs s).first pre (some pv) (some x) = true)
    (hprenm : ∀ a ∈ pre, winOf s.heap a ≠ w)
    (hg : hGet s.heap x = some c)
    (hw : c.window = w)
    (hprev : c.prev = some pv) (hnext : c.next = some nx)
    (hsuf : chainTo s.heap (some x) (some nx) suf pm none = true)
    (hsufnm : ∀ a ∈ suf, winOf s.heap a ≠ w)
    (hndsuf : suf.Nodup)
    (hpvsuf : pv ∉ suf)
    (hlen : pre.length + 1 + suf.length ≤ s.heap.length) :
    remove_window s w = .ok ({ s with
        heap := hSet (hSet s.heap pv { cellOf s.heap pv with next := some nx }) nx
          { cellOf s.heap nx with prev := some pv },
        ws := s.ws.set s.curW ⟨(selWs s).first, some pv⟩ } : WmState) := by
  have hpvmem : pv ∈ pre := by
    have := chainTo_pm_eq hpre
    cases hl : pre.getLast? with
    | none => rw [hl] at this; cases this
    | some l =>
      rw [hl] at this
      rw [Option.some.inj this]
      exact getLast?_mem_list hl
  have hnxsuf : nx ∈ suf := by
    rcases chainTo_head_eq hsuf with ⟨suf', rfl⟩
    simp
  have hnxpv : ¬ nx = pv := fun he => hpvsuf (he ▸ hnxsuf)
  have hgpv : hGet s.heap pv = some (cellOf s.heap pv) := chainTo_cellOf hpre hpvmem
  have hgnx : hGet s.heap nx = some (cellOf s.heap nx) := chainTo_cellOf hsuf hnxsuf
  rw [remove_window]
  rw [remove_scan_skip hpre hprenm (by omega)]
  obtain ⟨f2, hf2eq, hf2ge⟩ : ∃ f2, s.heap.length + 1 - pre.length = f2 + 1 ∧ suf.length ≤ f2 :=
    ⟨s.heap.length - pre.length, by omega, by omega⟩
  rw [hf2eq]
  simp only [remove_scan, hg, if_pos hw, hprev, hnext, hgpv]
  rw [hGet_hSet_ne hnxpv, hgnx]
  have hchain2 := mid_chain_cont hsuf hndsuf hpvsuf
  have hinner : ∀ b, winOf (hSet s.heap pv { cellOf s.heap pv with next := some nx }) b
      = winOf s.heap b := fun b =>
    winOf_hSet_same (show ({ cellOf s.heap pv with next := some nx } : Client).window
      = winOf s.heap pv from rfl)
  have hw2 : ∀ b, winOf (hSet (hSet s.heap pv { cellOf s.heap pv with next := some nx }) nx
      { cellOf s.heap nx with prev := some pv }) b = winOf s.heap b := by
    intro b
    rw [winOf_hSet_same (show ({ cellOf s.heap nx with prev := some pv } : Client).window
      = winOf (hSet s.heap pv { cellOf s.heap pv with next := some nx }) nx from by
        rw [hinner nx]
        rfl), hinner b]
  have hnm2 : ∀ a ∈ suf, winOf (hSet (hSet s.heap pv { cellOf s.heap pv with next := some nx })
      nx { cellOf s.heap nx with prev := some pv }) a ≠ w := fun a ha => by
    rw [hw2]
    exact hsufnm a ha
  refine @remove_scan_nomatch _ _ (some pv) _ pm _ ?_ ?_ _ hf2ge
  · exact hchain2
  · exact hnm2

end StupidWM

namespace StupidWM

/-! ## The global invariant

For src/stupidwm.c every completed handler maintains: the active slot holds a
well-formed doubly linked list whose focused client is a member (or both are
null), and — because `update_global` writes through the stale
`SEL_MONITOR_WS` alias — every *other* workspace slot is `(NULL, NULL)`. -/

def ActiveInv (s : WmState) (ns : List Addr) (pm : Option Addr) : Prop :=
  chainTo s.heap none (selWs s).first ns pm none = true ∧
  ns.Nodup ∧ (winsOf s.heap ns).Nodup ∧
  (match (selWs s).curr with
   | none => ns = []
   | some c => c ∈ ns)

structure Inv (s : WmState) : Prop where
  len10 : s.ws.length = 10
  curlt : s.curW < 10
  bound : ∀ p ∈ s.heap, p.1 < s.nextAddr
  others : ∀ k, k ≠ s.curW → getWs s k = emptyWs
  active : ∃ ns pm, ActiveInv s ns pm

theorem inv_initState (mw mh : Nat) : Inv (initState mw mh) := by
  refine ⟨by simp [initState], by simp [initState], by simp [initState], ?_, [], none, ?_⟩
  · intro k hk
    show (List.replicate 10 emptyWs).getD k emptyWs = emptyWs
    by_cases hk10 : k < 10
    · interval_cases k <;> rfl
    · rw [List.getD_eq_default _ _ (by simpa using Nat.le_of_not_lt hk10)]
  · refine ⟨?_, by simp, by simp [winsOf], ?_⟩
    · have : (selWs (initState mw mh)).first = none := by
        simp [selWs, getWs, initState, List.getD, List.getElem?_replicate, emptyWs]
      rw [this]
      rfl
    · have : (selWs (initState mw mh)).curr = none := by
        simp [selWs, getWs, initState, List.getD, List.getElem?_replicate, emptyWs]
      rw [this]

theorem find?_win_mem {h : HeapT} {ns : List Addr} {w : Win} {a : Addr}
    (hf : ns.find? (fun b => winOf h b == w) = some a) : a ∈ ns ∧ winOf h a = w :=
  ⟨List.mem_of_find?_eq_some hf, by
    have := List.find?_some hf
    simpa using this⟩

theorem find?_win_none {h : HeapT} {ns : List Addr} {w : Win}
    (hf : ns.find? (fun b => winOf h b == w) = none) : ∀ a ∈ ns, winOf h a ≠ w := by
  intro a ha
  have := List.find?_eq_none.1 hf a ha
  simpa using this

end StupidWM

namespace StupidWM

/-- `Inv` only constrains `heap`, `nextAddr`, `ws` and `curW`. -/
theorem inv_of_fields {s s' : WmState} (hInv : Inv s)
    (hh : s'.heap = s.heap) (hn : s'.nextAddr = s.nextAddr)
    (hw : s'.ws = s.ws) (hc : s'.curW = s.curW) : Inv s' := by
  rcases hInv with ⟨h1, h2, h3, h4, ns, pm, ha1, ha2, ha3, ha4⟩
  refine ⟨by rw [hw]; exact h1, by rw [hc]; exact h2, by rw [hh, hn]; exact h3, ?_, ns, pm, ?_, ha2, ?_, ?_⟩
  · intro k hk
    show s'.ws.getD k emptyWs = emptyWs
    rw [hw]
    exact h4 k (by rw [← hc]; exact hk)
  · show chainTo s'.heap none (s'.ws.getD s'.curW emptyWs).first ns pm none = true
    rw [hh, hw, hc]
    exact ha1
  · rw [hh]
    exact ha3
  · show (match (s'.ws.getD s'.curW emptyWs).curr with
      | none => ns = []
      | some c => c ∈ ns)
    rw [hw, hc]
    exact ha4

theorem spawn_inv {s s' : WmState} {t : List XCall} (hInv : Inv s)
    (h : spawn s = .ok (s', t)) : Inv s' := by
  cases h
  exact hInv

theorem configurenotify_inv {s s' : WmState} {t : List XCall} (hInv : Inv s)
    (h : configurenotify s = .ok (s', t)) : Inv s' := by
  cases h
  exact hInv

theorem configurerequest_inv {s s' : WmState} {w : Win} {t : List XCall} (hInv : Inv s)
    (h : configurerequest s w = .ok (s', t)) : Inv s' := by
  cases h
  exact hInv

theorem expose_inv {s s' : WmState} {b : Bool} {t : List XCall} (hInv : Inv s)
    (h : expose s b = .ok (s', t)) : Inv s' := by
  cases h
  exact hInv

theorem quit_inv {s s' : WmState} {t : List XCall} (hInv : Inv s)
    (h : quit s = .ok (s', t)) : Inv s' := by
  unfold quit at h
  by_cases hq : s.quitFlag
  · rw [if_pos hq] at h
    cases h
  · rw [if_neg hq] at h
    cases h
    exact inv_of_fields hInv rfl rfl rfl rfl

theorem kill_curr_inv {s s' : WmState} {t : List XCall} (hInv : Inv s)
    (h : kill_curr s = .ok (s', t)) : Inv s' := by
  unfold kill_curr at h
  cases hcu : (selWs s).curr with
  | none =>
    rw [hcu] at h
    cases h
    exact hInv
  | some cu =>
    simp only [hcu] at h
    cases hg : hGet s.heap cu with
    | none => simp [hg] at h
    | some cc =>
      simp only [hg] at h
      cases h
      exact hInv

end StupidWM

namespace StupidWM

/-- Storing the pair `(first, o2)` into the active slot (with the original
first pointer value) preserves the invariant when `o2` respects membership. -/
theorem inv_set_pair {s : WmState} (hInv : Inv s) {ns : List Addr} {pm : Option Addr}
    (hA : ActiveInv s ns pm) {o : Option Addr}
    (ho : match o with | none => ns = [] | some a => a ∈ ns) :
    Inv { s with ws := s.ws.set s.curW ⟨(selWs s).first, o⟩ } := by
  have hlt : s.curW < s.ws.length := by
    rw [hInv.len10]
    exact hInv.curlt
  obtain ⟨ha1, ha2, ha3, -⟩ := hA
  refine ⟨by simp [hInv.len10], hInv.curlt, hInv.bound, ?_, ns, pm, ?_, ha2, ha3, ?_⟩
  · intro k hk
    show (s.ws.set s.curW _).getD k emptyWs = emptyWs
    rw [getD_set_ne hk]
    exact hInv.others k hk
  · show chainTo s.heap none
      (((s.ws.set s.curW ⟨(selWs s).first, o⟩).getD s.curW emptyWs)).first ns pm none = true
    rw [getD_set_self hlt]
    exact ha1
  · show (match ((s.ws.set s.curW ⟨(selWs s).first, o⟩).getD s.curW emptyWs).curr with
      | none => ns = []
      | some c => c ∈ ns)
    rw [getD_set_self hlt]
    exact ho

theorem enternotify_inv {s s' : WmState} {w : Win} {t : List XCall} (hInv : Inv s)
    (h : enternotify s w = .ok (s', t)) : Inv s' := by
  unfold enternotify at h
  by_cases hr : w = rootwin
  · rw [if_pos hr] at h
    cases h
    exact hInv
  · rw [if_neg hr] at h
    obtain ⟨ns, pm, hA⟩ := hInv.active
    have hlt : s.curW < s.ws.length := by
      rw [hInv.len10]
      exact hInv.curlt
    have hlen : ns.length ≤ s.heap.length := chain_length_le hA.1 hA.2.1
    rw [findWin_spec hA.1 hlen] at h
    cases hfd : ns.find? (fun a => winOf s.heap a == w) with
    | none =>
      simp only [hfd] at h
      cases h
      exact hInv
    | some a =>
      simp only [hfd] at h
      have hmem := (find?_win_mem hfd).1
      rw [setSelCurr_eq] at h
      have hinv2 := inv_set_pair hInv hA (o := some a) hmem
      obtain ⟨ns2, pm2, hA2⟩ := hinv2.active
      obtain ⟨t2, ht2⟩ := update_curr_ok hA2.1 (by
        have := chain_length_le hA2.1 hA2.2.1
        simpa using this)
      rw [ht2] at h
      cases h
      exact hinv2

end StupidWM

namespace StupidWM

theorem move_left_inv {s s' : WmState} {t : List XCall} (hInv : Inv s)
    (h : move_left s = .ok (s', t)) : Inv s' := by
  unfold move_left at h
  by_cases hgd : (selWs s).curr = none ∨ (selWs s).first = none
  · rw [if_pos hgd] at h
    cases h
    exact hInv
  · rw [if_neg hgd] at h
    push_neg at hgd
    obtain ⟨ns, pm, hA⟩ := hInv.active
    have hlt : s.curW < s.ws.length := by
      rw [hInv.len10]
      exact hInv.curlt
    have hself : (selWs (setSelFirst s (selWs s).first)).first = (selWs s).first := by
      show ((s.ws.set s.curW _).getD s.curW emptyWs).first = _
      rw [getD_set_self hlt]
    simp only [setSel_pair hlt, hself] at h
    obtain ⟨f, hf⟩ : ∃ f, (selWs s).first = some f := Option.ne_none_iff_exists'.1 hgd.2
    have hmem : f ∈ ns := by
      rcases chainTo_head_eq (hf ▸ hA.1) with ⟨ns', hns⟩
      rw [hns]
      simp
    have hinv2 := inv_set_pair hInv hA (o := (selWs s).first) (by rw [hf]; exact hmem)
    obtain ⟨ns2, pm2, hA2⟩ := hinv2.active
    obtain ⟨t2, ht2⟩ := update_curr_ok hA2.1 (chain_length_le hA2.1 hA2.2.1)
    simp only [ht2] at h
    cases h
    exact hinv2

theorem move_right_inv {s s' : WmState} {t : List XCall} (hInv : Inv s)
    (h : move_right s = .ok (s', t)) : Inv s' := by
  unfold move_right at h
  obtain ⟨ns, pm, hA⟩ := hInv.active
  cases hcu : (selWs s).curr with
  | none =>
    simp only [hcu] at h
    cases h
    exact hInv
  | some cu =>
    cases hfr : (selWs s).first with
    | none =>
      simp only [hcu, hfr] at h
      cases h
      exact hInv
    | some f =>
      simp only [hcu, hfr] at h
      have hfm : f ∈ ns := by
        rcases chainTo_head_eq (hfr ▸ hA.1) with ⟨ns', hns⟩
        rw [hns]
        simp
      by_cases hcf : cu = f
      · rw [if_pos hcf] at h
        have hgf : hGet s.heap f = some (cellOf s.heap f) := chainTo_cellOf hA.1 hfm
        simp only [hgf] at h
        cases hnx : (cellOf s.heap f).next with
        | none =>
          simp only [hnx] at h
          obtain ⟨t2, ht2⟩ := update_curr_ok hA.1 (chain_length_le hA.1 hA.2.1)
          simp only [ht2] at h
          cases h
          exact hInv
        | some nx =>
          simp only [hnx] at h
          have hnxm : nx ∈ ns := chainTo_next_mem hA.1 hfm hnx
          rw [setSelCurr_eq] at h
          have hinv2 := inv_set_pair hInv hA (o := some nx) hnxm
          obtain ⟨ns2, pm2, hA2⟩ := hinv2.active
          obtain ⟨t2, ht2⟩ := update_curr_ok hA2.1 (chain_length_le hA2.1 hA2.2.1)
          simp only [ht2] at h
          cases h
          exact hinv2
      · rw [if_neg hcf] at h
        obtain ⟨t2, ht2⟩ := update_curr_ok hA.1 (chain_length_le hA.1 hA.2.1)
        simp only [ht2] at h
        cases h
        exact hInv

theorem move_up_inv {s s' : WmState} {t : List XCall} (hInv : Inv s)
    (h : move_up s = .ok (s', t)) : Inv s' := by
  unfold move_up at h
  obtain ⟨ns, pm, hA⟩ := hInv.active
  cases hcu : (selWs s).curr with
  | none =>
    simp only [hcu] at h
    cases h
    exact hInv
  | some cu =>
    cases hfr : (selWs s).first with
    | none =>
      simp only [hcu, hfr] at h
      cases h
      exact hInv
    | some f =>
      simp only [hcu, hfr] at h
      have hcum : cu ∈ ns := by
        have := hA.2.2.2
        rw [hcu] at this
        exact this
      by_cases hcf : cu ≠ f
      · rw [if_pos hcf] at h
        have hgc : hGet s.heap cu = some (cellOf s.heap cu) := chainTo_cellOf hA.1 hcum
        simp only [hgc] at h
        cases hpv : (cellOf s.heap cu).prev with
        | none =>
          simp only [hpv] at h
          obtain ⟨t2, ht2⟩ := update_curr_ok hA.1 (chain_length_le hA.1 hA.2.1)
          simp only [ht2] at h
          cases h
          exact hInv
        | some pv =>
          simp only [hpv] at h
          have hpvm : pv ∈ ns := by
            rcases chainTo_prev_mem hA.1 hcum hpv with hc | hm
            · cases hc
            · exact hm
          rw [setSelCurr_eq] at h
          have hinv2 := inv_set_pair hInv hA (o := some pv) hpvm
          obtain ⟨ns2, pm2, hA2⟩ := hinv2.active
          obtain ⟨t2, ht2⟩ := update_curr_ok hA2.1 (chain_length_le hA2.1 hA2.2.1)
          simp only [ht2] at h
          cases h
          exact hinv2
      · rw [if_neg hcf] at h
        obtain ⟨t2, ht2⟩ := update_curr_ok hA.1 (chain_length_le hA.1 hA.2.1)
        simp only [ht2] at h
        cases h
        exact hInv

theorem move_down_inv {s s' : WmState} {t : List XCall} (hInv : Inv s)
    (h : move_down s = .ok (s', t)) : Inv s' := by
  unfold move_down at h
  obtain ⟨ns, pm, hA⟩ := hInv.active
  cases hcu : (selWs s).curr with
  | none =>
    simp only [hcu] at h
    cases h
    exact hInv
  | some cu =>
    cases hfr : (selWs s).first with
    | none =>
      simp only [hcu, hfr] at h
      cases h
      exact hInv
    | some f =>
      simp only [hcu, hfr] at h
      have hcum : cu ∈ ns := by
        have := hA.2.2.2
        rw [hcu] at this
        exact this
      have hgc : hGet s.heap cu = some (cellOf s.heap cu) := chainTo_cellOf hA.1 hcum
      simp only [hgc] at h
      cases hnx : (cellOf s.heap cu).next with
      | none =>
        simp only [hnx] at h
        obtain ⟨t2, ht2⟩ := update_curr_ok hA.1 (chain_length_le hA.1 hA.2.1)
        simp only [ht2] at h
        cases h
        exact hInv
      | some nx =>
        simp only [hnx] at h
        have hnxm : nx ∈ ns := chainTo_next_mem hA.1 hcum hnx
        rw [setSelCurr_eq] at h
        have hinv2 := inv_set_pair hInv hA (o := some nx) hnxm
        obtain ⟨ns2, pm2, hA2⟩ := hinv2.active
        obtain ⟨t2, ht2⟩ := update_curr_ok hA2.1 (chain_length_le hA2.1 hA2.2.1)
        simp only [ht2] at h
        cases h
        exact hinv2

end StupidWM

namespace StupidWM

theorem save_state_eq (s : WmState) (idx : Nat) :
    save_state s idx = { s with ws := s.ws.set idx ⟨(selWs s).first, (selWs s).curr⟩ } := rfl

/-- `update_global(idx)` with `idx ≠ curr_workspace`: the stale alias writes
workspace `idx`'s pair into the *old* current slot, then moves the index. -/
theorem update_global_ne {s : WmState} {idx : Nat} (hlt : s.curW < s.ws.length)
    (hne : idx ≠ s.curW) :
    update_global s idx = { s with
      ws := s.ws.set s.curW ⟨(getWs s idx).first, (getWs s idx).curr⟩,
      curW := idx } := by
  show { setSelCurr (setSelFirst s (getWs s idx).first)
      (getWs (setSelFirst s (getWs s idx).first) idx).curr with curW := idx } = _
  have h2 : getWs (setSelFirst s (getWs s idx).first) idx = getWs s idx := by
    show ((s.ws.set s.curW _).getD idx emptyWs) = _
    rw [getD_set_ne hne]
    rfl
  rw [h2, setSel_pair hlt]

/-- `update_global(idx)` when `idx` is already the current workspace: a
self-copy of the active pair. -/
theorem update_global_cur {s : WmState} (hlt : s.curW < s.ws.length) :
    update_global s s.curW = { s with
      ws := s.ws.set s.curW ⟨(selWs s).first, (selWs s).curr⟩ } := by
  show { setSelCurr (setSelFirst s (getWs s s.curW).first)
      (getWs (setSelFirst s (getWs s s.curW).first) s.curW).curr with curW := s.curW } = _
  have h2 : getWs (setSelFirst s (getWs s s.curW).first) s.curW
      = ⟨(getWs s s.curW).first, (selWs s).curr⟩ := by
    show ((s.ws.set s.curW _).getD s.curW emptyWs) = _
    rw [getD_set_self hlt]
  rw [h2, setSel_pair hlt]
  rfl

end StupidWM

namespace StupidWM

/-- Full behaviour of `change_workspace(idx)` for `idx ≠ curr_workspace`:
every client of the active list is unmapped, every client of slot `idx`'s
list is mapped, the layout and focus calls are issued on the new state and
the bar is repainted; the old slot is overwritten with slot `idx`'s pair
(the `SEL_MONITOR_WS` alias) and the index moves to `idx`. -/
theorem change_workspace_spec {s : WmState} {idx : Nat} {nsA nsI : List Addr}
    {pmA pmI : Option Addr}
    (hneq : ¬ idx = s.curW)
    (hlt : s.curW < s.ws.length)
    (hA : chainTo s.heap none (selWs s).first nsA pmA none = true)
    (hAlen : nsA.length ≤ s.heap.length)
    (hI : chainTo s.heap none (getWs s idx).first nsI pmI none = true)
    (hIlen : nsI.length ≤ s.heap.length) :
    ∃ t3 t4,
      change_workspace s idx = .ok ({ s with
          ws := s.ws.set s.curW ⟨(getWs s idx).first, (getWs s idx).curr⟩,
          curW := idx },
        (winsOf s.heap nsA).map XCall.unmapW ++ (winsOf s.heap nsI).map XCall.mapW
          ++ t3 ++ t4 ++ [XCall.drawBar]) ∧
      tile_screen ({ s with
          ws := s.ws.set s.curW ⟨(getWs s idx).first, (getWs s idx).curr⟩,
          curW := idx } : WmState) = .ok t3 ∧
      update_curr ({ s with
          ws := s.ws.set s.curW ⟨(getWs s idx).first, (getWs s idx).curr⟩,
          curW := idx } : WmState) = .ok t4 := by
  have hcoll := collectCells_spec hA hAlen
  have hws1 : getWs (save_state s s.curW) idx = getWs s idx := by
    show ((s.ws.set s.curW _).getD idx emptyWs) = _
    rw [getD_set_ne hneq]
    rfl
  have hlt1 : (save_state s s.curW).curW < (save_state s s.curW).ws.length := by
    show s.curW < (s.ws.set s.curW _).length
    simpa using hlt
  have hupd := @update_global_ne (save_state s s.curW) idx hlt1 hneq
  rw [hws1] at hupd
  have hS2 : update_global (save_state s s.curW) idx = ({ s with
      ws := s.ws.set s.curW ⟨(getWs s idx).first, (getWs s idx).curr⟩,
      curW := idx } : WmState) := by
    rw [hupd]
    show ({ s with ws := (s.ws.set s.curW _).set s.curW _, curW := idx } : WmState) = _
    rw [List.set_set]
  have hsel2 : (selWs ({ s with
      ws := s.ws.set s.curW ⟨(getWs s idx).first, (getWs s idx).curr⟩,
      curW := idx } : WmState)) = ⟨(getWs s idx).first, (getWs s idx).curr⟩ := by
    show ((s.ws.set s.curW _).getD idx emptyWs) = _
    rw [getD_set_ne hneq]
    rfl
  have hchain2 : chainTo ({ s with
      ws := s.ws.set s.curW ⟨(getWs s idx).first, (getWs s idx).curr⟩,
      curW := idx } : WmState).heap none (selWs ({ s with
      ws := s.ws.set s.curW ⟨(getWs s idx).first, (getWs s idx).curr⟩,
      curW := idx } : WmState)).first nsI pmI none = true := by
    rw [hsel2]
    exact hI
  have hcoll2 := collectCells_spec hchain2 (show nsI.length ≤ ({ s with
      ws := s.ws.set s.curW ⟨(getWs s idx).first, (getWs s idx).curr⟩,
      curW := idx } : WmState).heap.length from hIlen)
  obtain ⟨t3, ht3⟩ := tile_screen_ok hchain2 hIlen
  obtain ⟨t4, ht4⟩ := update_curr_ok hchain2 hIlen
  refine ⟨t3, t4, ?_, ht3, ht4⟩
  simp only [change_workspace, if_neg hneq, hcoll, hS2, hcoll2, ht3, ht4]
  simp only [winsOf, List.map_map]
  rfl

end StupidWM

namespace StupidWM

theorem change_workspace_inv {s s' : WmState} {idx : Nat} {t : List XCall} (hInv : Inv s)
    (hidx : idx < 10) (h : change_workspace s idx = .ok (s', t)) : Inv s' := by
  by_cases hne : idx = s.curW
  · unfold change_workspace at h
    rw [if_pos hne] at h
    cases h
    exact hInv
  · obtain ⟨ns, pm, hA⟩ := hInv.active
    have hlt : s.curW < s.ws.length := by
      rw [hInv.len10]
      exact hInv.curlt
    have hgI : getWs s idx = emptyWs := hInv.others idx hne
    have hI : chainTo s.heap none (getWs s idx).first [] none none = true := by
      rw [hgI]
      rfl
    obtain ⟨t3, t4, hck, -, -⟩ :=
      change_workspace_spec hne hlt hA.1 (chain_length_le hA.1 hA.2.1) hI (by simp)
    rw [hck] at h
    cases h
    refine ⟨by simp [hInv.len10], hidx, hInv.bound, ?_, [], none, ?_, by simp,
      by simp [winsOf], ?_⟩
    · intro k hk
      show ((s.ws.set s.curW ⟨(getWs s idx).first, (getWs s idx).curr⟩).getD k emptyWs) = emptyWs
      by_cases hkc : k = s.curW
      · rw [hkc, getD_set_self hlt, hgI]
      · rw [getD_set_ne hkc]
        exact hInv.others k hkc
    · show chainTo s.heap none
        (((s.ws.set s.curW ⟨(getWs s idx).first, (getWs s idx).curr⟩).getD idx emptyWs)).first
        [] none none = true
      rw [getD_set_ne hne]
      have hgI2 : s.ws.getD idx emptyWs = emptyWs := hgI
      rw [hgI2]
      rfl
    · show (match ((s.ws.set s.curW ⟨(getWs s idx).first, (getWs s idx).curr⟩).getD idx
          emptyWs).curr with
        | none => ([] : List Addr) = []
        | some c => c ∈ ([] : List Addr))
      rw [getD_set_ne hne]
      have hgI2 : s.ws.getD idx emptyWs = emptyWs := hgI
      rw [hgI2]
      rfl

end StupidWM

namespace StupidWM

theorem winOf_eq_of_hGet {h : HeapT} {a : Addr} {c : Client} (hg : hGet h a = some c) :
    winOf h a = c.window := by
  show ((hGet h a).getD dfltCell).window = c.window
  rw [hg]
  rfl

theorem maprequest_inv {s s' : WmState} {w : Win} {t : List XCall} (hInv : Inv s)
    (h : maprequest s w = .ok (s', t)) : Inv s' := by
  obtain ⟨ns, pm, hA⟩ := hInv.active
  have hlt : s.curW < s.ws.length := by
    rw [hInv.len10]
    exact hInv.curlt
  have hlen : ns.length ≤ s.heap.length := chain_length_le hA.1 hA.2.1
  unfold maprequest at h
  rw [findWin_spec hA.1 hlen] at h
  cases hfd : ns.find? (fun a => winOf s.heap a == w) with
  | some a =>
    simp only [hfd] at h
    cases h
    exact hInv
  | none =>
    simp only [hfd] at h
    have hnomem := find?_win_none hfd
    cases hfr : (selWs s).first with
    | none =>
      have hns : ns = [] := by
        cases hnse : ns with
        | nil => rfl
        | cons a ns' =>
          have := (chainTo_cons_iff.1 (by rw [← hnse]; exact (hfr ▸ hA.1))).1
          cases this
      simp only [add_window_spec_empty hfr hlt w] at h
      have hinv2 : Inv ({ s with
          heap := (s.nextAddr, (⟨none, none, w⟩ : Client)) :: s.heap,
          nextAddr := s.nextAddr + 1,
          ws := s.ws.set s.curW ⟨some s.nextAddr, some s.nextAddr⟩ } : WmState) := by
        refine ⟨by simp [hInv.len10], hInv.curlt, ?_, ?_, [s.nextAddr], some s.nextAddr,
          ?_, by simp, ?_, ?_⟩
        · intro p hp
          rcases List.mem_cons.1 hp with rfl | hp
          · simp
          · exact Nat.lt_succ_of_lt (hInv.bound p hp)
        · intro k hk
          show ((s.ws.set s.curW _).getD k emptyWs) = emptyWs
          rw [getD_set_ne hk]
          exact hInv.others k hk
        · show chainTo _ none (((s.ws.set s.curW _).getD s.curW emptyWs)).first
            [s.nextAddr] (some s.nextAddr) none = true
          rw [getD_set_self hlt]
          apply chainTo_cons_iff.2
          refine ⟨rfl, ⟨none, none, w⟩, by simp [hGet], rfl, chainTo_nil_iff.2 ⟨rfl, rfl⟩⟩
        · simp [winsOf]
        · show (match ((s.ws.set s.curW _).getD s.curW emptyWs).curr with
            | none => [s.nextAddr] = [] | some c => c ∈ [s.nextAddr])
          rw [getD_set_self hlt]
          simp
      obtain ⟨ns2, pm2, hA2⟩ := hinv2.active
      obtain ⟨t3, ht3⟩ := tile_screen_ok hA2.1 (chain_length_le hA2.1 hA2.2.1)
      obtain ⟨t4, ht4⟩ := update_curr_ok hA2.1 (chain_length_le hA2.1 hA2.2.1)
      simp only [ht3, ht4] at h
      cases h
      exact hinv2
    | some f =>
      have hchainf : chainTo s.heap none (some f) ns pm none = true := hfr ▸ hA.1
      rcases chainTo_head_eq hchainf with ⟨ns0, hns⟩
      have hnenil : ns ≠ [] := by
        rw [hns]
        simp
      obtain ⟨l, hl⟩ : ∃ l, ns.getLast? = some l :=
        ⟨ns.getLast hnenil, List.getLast?_eq_getLast_of_ne_nil hnenil⟩
      have hfresh : ∀ b ∈ ns, b ≠ s.nextAddr := by
        intro b hb he
        have hk := hGet_isSome_mem_keys (chainTo_mem_isSome hA.1 hb)
        rcases List.mem_map.1 hk with ⟨p, hp, hpe⟩
        have hlt2 := hInv.bound p hp
        rw [hpe, he] at hlt2
        exact lt_irrefl s.nextAddr hlt2
      simp only [add_window_spec_cons hfr hchainf hl hlen hInv.bound w] at h
      have hchain2 := @add_chain s.heap none f l s.nextAddr ns pm w hchainf hl hA.2.1 hfresh
      have hwa2 : winOf (hSet ((s.nextAddr, (⟨none, some l, w⟩ : Client)) :: s.heap) l
          { cellOf s.heap l with next := some s.nextAddr }) s.nextAddr = w := by
        have hlmem : l ∈ ns := getLast?_mem_list hl
        have hlna : ¬ s.nextAddr = l := fun he => hfresh l hlmem he.symm
        have : hGet (hSet ((s.nextAddr, (⟨none, some l, w⟩ : Client)) :: s.heap) l
            { cellOf s.heap l with next := some s.nextAddr }) s.nextAddr
            = some ⟨none, some l, w⟩ := by
          rw [hGet_hSet_ne hlna]
          simp [hGet]
        exact winOf_eq_of_hGet this
      have hweq : ∀ b ∈ ns, winOf (hSet ((s.nextAddr, (⟨none, some l, w⟩ : Client)) :: s.heap) l
          { cellOf s.heap l with next := some s.nextAddr }) b = winOf s.heap b := by
        intro b hb
        have hlmem : l ∈ ns := getLast?_mem_list hl
        have hbna : ¬ s.nextAddr = b := fun he => hfresh b hb he.symm
        by_cases hbl : b = l
        · rw [hbl]
          have hgl : hGet s.heap l = some (cellOf s.heap l) := chainTo_cellOf hchainf hlmem
          have hgl1 : hGet ((s.nextAddr, (⟨none, some l, w⟩ : Client)) :: s.heap) l
              = some (cellOf s.heap l) := by
            simp only [hGet, if_neg (show ¬ s.nextAddr = l from fun he => hfresh l hlmem he.symm)]
            exact hgl
          have hgl2 := hGet_hSet_self (h := (s.nextAddr, (⟨none, some l, w⟩ : Client)) :: s.heap)
            (a := l) (c := { cellOf s.heap l with next := some s.nextAddr }) (by simp [hgl1])
          show ((hGet _ l).getD dfltCell).window = ((hGet s.heap l).getD dfltCell).window
          rw [hgl2, hgl]
          rfl
        · have hgb : hGet (hSet ((s.nextAddr, (⟨none, some l, w⟩ : Client)) :: s.heap) l
              { cellOf s.heap l with next := some s.nextAddr }) b = hGet s.heap b := by
            rw [hGet_hSet_ne hbl]
            simp only [hGet, if_neg hbna]
          show ((hGet _ b).getD dfltCell).window = ((hGet s.heap b).getD dfltCell).window
          rw [hgb]
      have hinv2 : Inv ({ s with
          heap := hSet ((s.nextAddr, (⟨none, some l, w⟩ : Client)) :: s.heap) l
            { cellOf s.heap l with next := some s.nextAddr },
          nextAddr := s.nextAddr + 1,
          ws := s.ws.set s.curW ⟨(selWs s).first, some s.nextAddr⟩ } : WmState) := by
        refine ⟨by simp [hInv.len10], hInv.curlt, ?_, ?_, ns ++ [s.nextAddr], some s.nextAddr,
          ?_, ?_, ?_, ?_⟩
        · intro p hp
          have hpk : p.1 ∈ ((s.nextAddr, (⟨none, some l, w⟩ : Client)) :: s.heap).map Prod.fst := by
            rw [← keys_hSet (a := l) (c := { cellOf s.heap l with next := some s.nextAddr })]
            exact List.mem_map_of_mem _ hp
          rcases List.mem_map.1 hpk with ⟨q, hq, hqe⟩
          rcases List.mem_cons.1 hq with heq | hq
          · rw [← hqe, heq]
            simp
          · rw [← hqe]
            exact Nat.lt_succ_of_lt (hInv.bound q hq)
        · intro k hk
          show ((s.ws.set s.curW _).getD k emptyWs) = emptyWs
          rw [getD_set_ne hk]
          exact hInv.others k hk
        · show chainTo _ none (((s.ws.set s.curW _).getD s.curW emptyWs)).first
            (ns ++ [s.nextAddr]) (some s.nextAddr) none = true
          rw [getD_set_self hlt]
          show chainTo _ none (selWs s).first (ns ++ [s.nextAddr]) (some s.nextAddr) none = true
          rw [hfr]
          exact hchain2
        · simp only [List.nodup_append]
          exact ⟨hA.2.1, by simp, by
            intro b hb hb'
            have : b = s.nextAddr := by simpa using hb'
            exact hfresh b hb this⟩
        · show ((ns ++ [s.nextAddr]).map (winOf _)).Nodup
          rw [List.map_append]
          have he1 : ns.map (winOf (hSet ((s.nextAddr, (⟨none, some l, w⟩ : Client)) :: s.heap) l
              { cellOf s.heap l with next := some s.nextAddr })) = winsOf s.heap ns :=
            List.map_congr_left hweq
          have he2 : [s.nextAddr].map (winOf (hSet ((s.nextAddr,
              (⟨none, some l, w⟩ : Client)) :: s.heap) l
              { cellOf s.heap l with next := some s.nextAddr })) = [w] := by
            simp [hwa2]
          rw [he1, he2]
          simp only [List.nodup_append]
          refine ⟨hA.2.2.1, by simp, ?_⟩
          intro b hb hb'
          have hbw : b = w := by simpa using hb'
          rcases List.mem_map.1 hb with ⟨a, ha, hae⟩
          exact hnomem a ha (by rw [hae, hbw])
        · show (match ((s.ws.set s.curW _).getD s.curW emptyWs).curr with
            | none => ns ++ [s.nextAddr] = [] | some c => c ∈ ns ++ [s.nextAddr])
          rw [getD_set_self hlt]
          simp
      obtain ⟨ns2, pm2, hA2⟩ := hinv2.active
      obtain ⟨t3, ht3⟩ := tile_screen_ok hA2.1 (chain_length_le hA2.1 hA2.2.1)
      obtain ⟨t4, ht4⟩ := update_curr_ok hA2.1 (chain_length_le hA2.1 hA2.2.1)
      simp only [ht3, ht4] at h
      cases h
      exact hinv2

end StupidWM

namespace StupidWM

/-- Removing a tail node of a list with at least two clients executes
`cl->next->prev = cl->prev` with `cl->next == NULL`: undefined behaviour. -/
theorem remove_window_spec_tail {s : WmState} {x pv : Addr} {c : Client} {w : Win}
    {pre : List Addr}
    (hpre : chainTo s.heap none (selWs s).first pre (some pv) (some x) = true)
    (hprenm : ∀ a ∈ pre, winOf s.heap a ≠ w)
    (hg : hGet s.heap x = some c) (hw : c.window = w)
    (hprev : c.prev = some pv) (hnext : c.next = none)
    (hprelen : pre.length ≤ s.heap.length) :
    remove_window s w = .error "null dereference" := by
  rw [remove_window]
  rw [remove_scan_skip hpre hprenm (by omega)]
  obtain ⟨f2, hf2⟩ : ∃ f2, s.heap.length + 1 - pre.length = f2 + 1 :=
    ⟨s.heap.length - pre.length, by omega⟩
  rw [hf2]
  simp only [remove_scan, hg, if_pos hw, hprev, hnext]

/-- The two middle-unlink heap writes do not change any window field. -/
theorem winOf_double_hSet {h : HeapT} {pv nx : Addr} :
    ∀ b, winOf (hSet (hSet h pv { cellOf h pv with next := some nx }) nx
      { cellOf h nx with prev := some pv }) b = winOf h b := by
  have hinner : ∀ b, winOf (hSet h pv { cellOf h pv with next := some nx }) b
      = winOf h b := fun b =>
    winOf_hSet_same (show ({ cellOf h pv with next := some nx } : Client).window
      = winOf h pv from rfl)
  intro b
  rw [winOf_hSet_same (show ({ cellOf h nx with prev := some pv } : Client).window
    = winOf (hSet h pv { cellOf h pv with next := some nx }) nx from by
      rw [hinner nx]
      rfl), hinner b]

end StupidWM

namespace StupidWM

theorem destroynotify_inv {s s' : WmState} {w : Win} {t : List XCall} (hInv : Inv s)
    (h : destroynotify s w = .ok (s', t)) : Inv s' := by
  obtain ⟨ns, pm, hA⟩ := hInv.active
  have hlt : s.curW < s.ws.length := by
    rw [hInv.len10]
    exact hInv.curlt
  have hlen : ns.length ≤ s.heap.length := chain_length_le hA.1 hA.2.1
  unfold destroynotify at h
  rw [findWin_spec hA.1 hlen] at h
  cases hfd : ns.find? (fun a => winOf s.heap a == w) with
  | none =>
    simp only [hfd] at h
    cases h
    exact hInv
  | some a =>
    simp only [hfd] at h
    obtain ⟨hmem, hwin⟩ := find?_win_mem hfd
    obtain ⟨pre, suf, hns⟩ := List.append_of_mem hmem
    have hch : chainTo s.heap none (selWs s).first (pre ++ a :: suf) pm none = true := by
      rw [← hns]
      exact hA.1
    have hnd : (pre ++ a :: suf).Nodup := by
      rw [← hns]
      exact hA.2.1
    have hwnd : (winsOf s.heap (pre ++ a :: suf)).Nodup := by
      rw [← hns]
      exact hA.2.2.1
    have hwapp : winsOf s.heap (pre ++ a :: suf)
        = winsOf s.heap pre ++ winOf s.heap a :: winsOf s.heap suf := by
      simp [winsOf]
    rw [hwapp] at hwnd
    have hprenm : ∀ b ∈ pre, winOf s.heap b ≠ w := by
      intro b hb he
      rcases List.nodup_append.1 hwnd with ⟨-, -, hdisj⟩
      have h1 : w ∈ winsOf s.heap pre := by
        rw [← he]
        exact List.mem_map_of_mem _ hb
      have h2 : w ∈ winOf s.heap a :: winsOf s.heap suf := by
        rw [← hwin]
        simp
      exact hdisj h1 h2
    have hsufnm : ∀ b ∈ suf, winOf s.heap b ≠ w := by
      intro b hb he
      rcases List.nodup_append.1 hwnd with ⟨-, hnd2, -⟩
      rcases List.nodup_cons.1 hnd2 with ⟨hnotin, -⟩
      exact hnotin (hwin ▸ he ▸ List.mem_map_of_mem _ hb)
    rcases chainTo_append_iff.1 hch with ⟨pm1, om1, hchpre, hchrest⟩
    rcases chainTo_cons_iff.1 hchrest with ⟨hom1, c, hg, hcp, hchsuf⟩
    have hcw : c.window = w := by
      rw [← hwin]
      simp [winOf, cellOf, hg]
    have hlenall : pre.length + 1 + suf.length ≤ s.heap.length := by
      have : ns.length = pre.length + 1 + suf.length := by
        rw [hns]
        simp
        omega
      omega
    cases hpre : pre with
    | nil =>
      rw [hpre] at hchpre
      rcases chainTo_nil_iff.1 hchpre with ⟨hpm1, hfo⟩
      have hfirst : (selWs s).first = some a := by
        rw [← hfo, hom1]
      have hcprev : c.prev = none := by
        rw [hcp, ← hpm1]
      cases hsuf : suf with
      | nil =>
        rw [hsuf] at hchsuf
        rcases chainTo_nil_iff.1 hchsuf with ⟨-, hcnx⟩
        simp only [remove_window_spec_single hfirst hg hcw hcprev hcnx.symm hlt] at h
        have hinv2 : Inv ({ s with
            heap := hFree s.heap a,
            ws := s.ws.set s.curW ⟨none, none⟩ } : WmState) := by
          refine ⟨by simp [hInv.len10], hInv.curlt, ?_, ?_, [], none, ?_, by simp,
            by simp [winsOf], ?_⟩
          · intro p hp
            exact hInv.bound p (mem_hFree hp)
          · intro k hk
            show ((s.ws.set s.curW _).getD k emptyWs) = emptyWs
            rw [getD_set_ne hk]
            exact hInv.others k hk
          · show chainTo _ none (((s.ws.set s.curW (⟨none, none⟩ : Workspace)).getD
              s.curW emptyWs)).first [] none none = true
            rw [getD_set_self hlt]
            rfl
          · show (match ((s.ws.set s.curW (⟨none, none⟩ : Workspace)).getD
              s.curW emptyWs).curr with
              | none => ([] : List Addr) = [] | some c => c ∈ ([] : List Addr))
            rw [getD_set_self hlt]
        obtain ⟨ns2, pm2, hA2⟩ := hinv2.active
        obtain ⟨t3, ht3⟩ := tile_screen_ok hA2.1 (chain_length_le hA2.1 hA2.2.1)
        obtain ⟨t4, ht4⟩ := update_curr_ok hA2.1 (chain_length_le hA2.1 hA2.2.1)
        simp only [ht3, ht4] at h
        cases h
        exact hinv2
      | cons nx suf' =>
        have hcnx : c.next = some nx := by
          rw [hsuf] at hchsuf
          exact (chainTo_cons_iff.1 hchsuf).1
        have hndsuf : suf.Nodup := by
          rw [hpre] at hnd
          exact (List.nodup_cons.1 (by simpa using hnd)).2
        have hchsuf2 : chainTo s.heap (some a) (some nx) suf pm none = true := by
          rw [← hcnx]
          exact hchsuf
        have hsuflen : suf.length ≤ s.heap.length := by omega
        simp only [remove_window_spec_head hfirst hg hcw hcprev hcnx hchsuf2 hndsuf
          hsufnm hsuflen hlt] at h
        have hndw : (winsOf s.heap suf).Nodup := by
          rcases List.nodup_append.1 hwnd with ⟨-, hnd2, -⟩
          exact (List.nodup_cons.1 hnd2).2
        have hwpres : ∀ b, winOf (hSet s.heap nx { cellOf s.heap nx with prev := none }) b
            = winOf s.heap b := fun b => winOf_hSet_same rfl
        have hinv2 : Inv ({ s with
            heap := hSet s.heap nx { cellOf s.heap nx with prev := none },
            ws := s.ws.set s.curW ⟨some nx, some nx⟩ } : WmState) := by
          refine ⟨by simp [hInv.len10], hInv.curlt, bound_hSet hInv.bound, ?_, suf, pm,
            ?_, hndsuf, ?_, ?_⟩
          · intro k hk
            show ((s.ws.set s.curW _).getD k emptyWs) = emptyWs
            rw [getD_set_ne hk]
            exact hInv.others k hk
          · show chainTo _ none (((s.ws.set s.curW (⟨some nx, some nx⟩ : Workspace)).getD
              s.curW emptyWs)).first suf pm none = true
            rw [getD_set_self hlt]
            exact head_chain hchsuf2 hndsuf
          · show (winsOf (hSet s.heap nx { cellOf s.heap nx with prev := none }) suf).Nodup
            have : winsOf (hSet s.heap nx { cellOf s.heap nx with prev := none }) suf
                = winsOf s.heap suf := List.map_congr_left (fun b _ => hwpres b)
            rw [this]
            exact hndw
          · show (match ((s.ws.set s.curW (⟨some nx, some nx⟩ : Workspace)).getD
              s.curW emptyWs).curr with
              | none => suf = [] | some c => c ∈ suf)
            rw [getD_set_self hlt]
            show nx ∈ suf
            rw [hsuf]
            exact List.mem_cons_self nx suf'
        obtain ⟨ns2, pm2, hA2⟩ := hinv2.active
        obtain ⟨t3, ht3⟩ := tile_screen_ok hA2.1 (chain_length_le hA2.1 hA2.2.1)
        obtain ⟨t4, ht4⟩ := update_curr_ok hA2.1 (chain_length_le hA2.1 hA2.2.1)
        simp only [ht3, ht4] at h
        cases h
        exact hinv2
    | cons p0 pre0 =>
      have hplne : pre ≠ [] := by
        rw [hpre]
        simp
      obtain ⟨pv, hpv⟩ : ∃ pv, pm1 = some pv := by
        have hq := chainTo_pm_eq hchpre
        cases hl : pre.getLast? with
        | none =>
          exact absurd (List.getLast?_eq_none_iff.1 hl) hplne
        | some l =>
          rw [hl] at hq
          exact ⟨l, hq⟩
      have hpvmem : pv ∈ pre := by
        have hq := chainTo_pm_eq hchpre
        cases hl : pre.getLast? with
        | none => exact absurd (List.getLast?_eq_none_iff.1 hl) hplne
        | some l =>
          rw [hl, hpv] at hq
          rw [Option.some.inj hq]
          exact getLast?_mem_list hl
      have hcprev : c.prev = some pv := by
        rw [hcp, hpv]
      have hchpre2 : chainTo s.heap none (selWs s).first pre (some pv) (some a) = true := by
        rw [← hpv, ← hom1]
        exact hchpre
      have hndpre : pre.Nodup := (List.nodup_append.1 hnd).1
      have hdisj : List.Disjoint pre (a :: suf) := (List.nodup_append.1 hnd).2.2
      cases hsuf : suf with
      | nil =>
        rw [hsuf] at hchsuf
        rcases chainTo_nil_iff.1 hchsuf with ⟨-, hcnx⟩
        rw [remove_window_spec_tail hchpre2 hprenm hg hcw hcprev hcnx.symm
          (by omega)] at h
        cases h
      | cons nx suf' =>
        have hcnx : c.next = some nx := by
          rw [hsuf] at hchsuf
          exact (chainTo_cons_iff.1 hchsuf).1
        have hchsuf2 : chainTo s.heap (some a) (some nx) suf pm none = true := by
          rw [← hcnx]
          exact hchsuf
        have hndsuf : suf.Nodup := (List.nodup_cons.1 (List.nodup_append.1 hnd).2.1).2
        have hnxsuf : nx ∈ suf := by
          rw [hsuf]
          exact List.mem_cons_self nx suf'
        have hpvsuf : pv ∉ suf := fun hmem =>
          hdisj hpvmem (List.mem_cons_of_mem a hmem)
        have hnxpre : nx ∉ pre := fun hmem =>
          hdisj hmem (List.mem_cons_of_mem a hnxsuf)
        simp only [remove_window_spec_middle hchpre2 hprenm hg hcw hcprev hcnx hchsuf2
          hsufnm hndsuf hpvsuf hlenall] at h
        have hwpres := @winOf_double_hSet s.heap pv nx
        have hndw2 : (winsOf s.heap pre ++ winsOf s.heap suf).Nodup := by
          refine List.Nodup.sublist ?_ hwnd
          exact List.Sublist.append_left (List.sublist_cons_self _ _) _
        have hinv2 : Inv ({ s with
            heap := hSet (hSet s.heap pv { cellOf s.heap pv with next := some nx }) nx
              { cellOf s.heap nx with prev := some pv },
            ws := s.ws.set s.curW ⟨(selWs s).first, some pv⟩ } : WmState) := by
          refine ⟨by simp [hInv.len10], hInv.curlt, bound_hSet (bound_hSet hInv.bound), ?_,
            pre ++ suf, pm, ?_, ?_, ?_, ?_⟩
          · intro k hk
            show ((s.ws.set s.curW _).getD k emptyWs) = emptyWs
            rw [getD_set_ne hk]
            exact hInv.others k hk
          · show chainTo _ none (((s.ws.set s.curW
              (⟨(selWs s).first, some pv⟩ : Workspace)).getD s.curW emptyWs)).first
              (pre ++ suf) pm none = true
            rw [getD_set_self hlt]
            exact chainTo_append_iff.2 ⟨some pv, some nx,
              mid_chain_pre hchpre2 hndpre hnxpre, mid_chain_cont hchsuf2 hndsuf hpvsuf⟩
          · refine List.Nodup.sublist ?_ hnd
            exact List.Sublist.append_left (List.sublist_cons_self _ _) _
          · show (winsOf (hSet (hSet s.heap pv { cellOf s.heap pv with next := some nx }) nx
              { cellOf s.heap nx with prev := some pv }) (pre ++ suf)).Nodup
            have heq : winsOf (hSet (hSet s.heap pv { cellOf s.heap pv with next := some nx })
                nx { cellOf s.heap nx with prev := some pv }) (pre ++ suf)
                = winsOf s.heap (pre ++ suf) :=
              List.map_congr_left (fun b _ => hwpres b)
            rw [heq]
            show (winsOf s.heap (pre ++ suf)).Nodup
            have : winsOf s.heap (pre ++ suf)
                = winsOf s.heap pre ++ winsOf s.heap suf := by
              simp [winsOf]
            rw [this]
            exact hndw2
          · show (match ((s.ws.set s.curW
              (⟨(selWs s).first, some pv⟩ : Workspace)).getD s.curW emptyWs).curr with
              | none => pre ++ suf = [] | some c => c ∈ pre ++ suf)
            rw [getD_set_self hlt]
            show pv ∈ pre ++ suf
            exact List.mem_append_left _ hpvmem
        obtain ⟨ns2, pm2, hA2⟩ := hinv2.active
        obtain ⟨t3, ht3⟩ := tile_screen_ok hA2.1 (chain_length_le hA2.1 hA2.2.1)
        obtain ⟨t4, ht4⟩ := update_curr_ok hA2.1 (chain_length_le hA2.1 hA2.2.1)
        simp only [ht3, ht4] at h
        cases h
        exact hinv2

end StupidWM

namespace StupidWM

theorem client_to_workspace_inv {s s' : WmState} {idx : Nat} {t : List XCall}
    (hInv : Inv s) (hidx : idx < 10)
    (h : client_to_workspace s idx = .ok (s', t)) : Inv s' := by
  by_cases hc0 : idx = s.curW ∨ (selWs s).curr = none
  · unfold client_to_workspace at h
    rw [if_pos hc0] at h
    cases h
    exact hInv
  · have hc1 := hc0
    push_neg at hc1
    obtain ⟨hne, hcne⟩ := hc1
    obtain ⟨ns, pm, hA⟩ := hInv.active
    have hlt : s.curW < s.ws.length := by
      rw [hInv.len10]
      exact hInv.curlt
    have hgI : getWs s idx = emptyWs := hInv.others idx hne
    cases htm : (selWs s).curr with
    | none => exact absurd htm hcne
    | some tm =>
      have htmmem : tm ∈ ns := by
        have hq := hA.2.2.2
        rw [htm] at hq
        exact hq
      have hg : hGet s.heap tm = some (cellOf s.heap tm) := chainTo_cellOf hA.1 htmmem
      have hupd : update_global s idx = ({ s with
          ws := s.ws.set s.curW emptyWs,
          curW := idx } : WmState) := by
        rw [update_global_ne hlt hne, hgI]
      have hf1 : (selWs ({ s with
          ws := s.ws.set s.curW emptyWs,
          curW := idx } : WmState)).first = none := by
        show ((s.ws.set s.curW emptyWs).getD idx emptyWs).first = none
        rw [getD_set_ne hne]
        have hx : s.ws.getD idx emptyWs = emptyWs := hgI
        rw [hx]
        rfl
      have hlt1 : ({ s with ws := s.ws.set s.curW emptyWs, curW := idx } : WmState).curW
          < ({ s with ws := s.ws.set s.curW emptyWs, curW := idx } : WmState).ws.length := by
        show idx < (s.ws.set s.curW emptyWs).length
        simp [hInv.len10, hidx]
      have hadd2 : add_window ({ s with
          ws := s.ws.set s.curW emptyWs,
          curW := idx } : WmState) (cellOf s.heap tm).window = .ok (({ s with
            heap := (s.nextAddr, (⟨none, none, (cellOf s.heap tm).window⟩ : Client)) :: s.heap,
            nextAddr := s.nextAddr + 1,
            ws := (s.ws.set s.curW emptyWs).set idx ⟨some s.nextAddr, some s.nextAddr⟩,
            curW := idx } : WmState), [XCall.selectInput (cellOf s.heap tm).window]) := by
        rw [add_window_spec_empty hf1 hlt1]
      have hltS2 : idx < (s.ws.set s.curW emptyWs).length := by
        simp [hInv.len10, hidx]
      have hsel2 : selWs ({ s with
          heap := (s.nextAddr, (⟨none, none, (cellOf s.heap tm).window⟩ : Client)) :: s.heap,
          nextAddr := s.nextAddr + 1,
          ws := (s.ws.set s.curW emptyWs).set idx ⟨some s.nextAddr, some s.nextAddr⟩,
          curW := idx } : WmState) = ⟨some s.nextAddr, some s.nextAddr⟩ := by
        show (((s.ws.set s.curW emptyWs).set idx
          ⟨some s.nextAddr, some s.nextAddr⟩).getD idx emptyWs) = _
        rw [getD_set_self hltS2]
      have hsave : save_state ({ s with
          heap := (s.nextAddr, (⟨none, none, (cellOf s.heap tm).window⟩ : Client)) :: s.heap,
          nextAddr := s.nextAddr + 1,
          ws := (s.ws.set s.curW emptyWs).set idx ⟨some s.nextAddr, some s.nextAddr⟩,
          curW := idx } : WmState) idx = ({ s with
          heap := (s.nextAddr, (⟨none, none, (cellOf s.heap tm).window⟩ : Client)) :: s.heap,
          nextAddr := s.nextAddr + 1,
          ws := (s.ws.set s.curW emptyWs).set idx ⟨some s.nextAddr, some s.nextAddr⟩,
          curW := idx } : WmState) := by
        rw [save_state_eq, hsel2]
        show ({ s with
          heap := (s.nextAddr, (⟨none, none, (cellOf s.heap tm).window⟩ : Client)) :: s.heap,
          nextAddr := s.nextAddr + 1,
          ws := ((s.ws.set s.curW emptyWs).set idx
            ⟨some s.nextAddr, some s.nextAddr⟩).set idx ⟨some s.nextAddr, some s.nextAddr⟩,
          curW := idx } : WmState) = _
        rw [List.set_set]
      have hltS2b : ({ s with
          heap := (s.nextAddr, (⟨none, none, (cellOf s.heap tm).window⟩ : Client)) :: s.heap,
          nextAddr := s.nextAddr + 1,
          ws := (s.ws.set s.curW emptyWs).set idx ⟨some s.nextAddr, some s.nextAddr⟩,
          curW := idx } : WmState).curW < ({ s with
          heap := (s.nextAddr, (⟨none, none, (cellOf s.heap tm).window⟩ : Client)) :: s.heap,
          nextAddr := s.nextAddr + 1,
          ws := (s.ws.set s.curW emptyWs).set idx ⟨some s.nextAddr, some s.nextAddr⟩,
          curW := idx } : WmState).ws.length := by
        show idx < ((s.ws.set s.curW emptyWs).set idx
          ⟨some s.nextAddr, some s.nextAddr⟩).length
        simp [hInv.len10, hidx]
      have hug3 : update_global ({ s with
          heap := (s.nextAddr, (⟨none, none, (cellOf s.heap tm).window⟩ : Client)) :: s.heap,
          nextAddr := s.nextAddr + 1,
          ws := (s.ws.set s.curW emptyWs).set idx ⟨some s.nextAddr, some s.nextAddr⟩,
          curW := idx } : WmState) idx = ({ s with
          heap := (s.nextAddr, (⟨none, none, (cellOf s.heap tm).window⟩ : Client)) :: s.heap,
          nextAddr := s.nextAddr + 1,
          ws := (s.ws.set s.curW emptyWs).set idx ⟨some s.nextAddr, some s.nextAddr⟩,
          curW := idx } : WmState) := by
        have hq : update_global ({ s with
            heap := (s.nextAddr, (⟨none, none, (cellOf s.heap tm).window⟩ : Client)) :: s.heap,
            nextAddr := s.nextAddr + 1,
            ws := (s.ws.set s.curW emptyWs).set idx ⟨some s.nextAddr, some s.nextAddr⟩,
            curW := idx } : WmState) idx = ({ s with
            heap := (s.nextAddr, (⟨none, none, (cellOf s.heap tm).window⟩ : Client)) :: s.heap,
            nextAddr := s.nextAddr + 1,
            ws := ((s.ws.set s.curW emptyWs).set idx
              ⟨some s.nextAddr, some s.nextAddr⟩).set idx
              ⟨(selWs ({ s with
                heap := (s.nextAddr,
                  (⟨none, none, (cellOf s.heap tm).window⟩ : Client)) :: s.heap,
                nextAddr := s.nextAddr + 1,
                ws := (s.ws.set s.curW emptyWs).set idx ⟨some s.nextAddr, some s.nextAddr⟩,
                curW := idx } : WmState)).first,
               (selWs ({ s with
                heap := (s.nextAddr,
                  (⟨none, none, (cellOf s.heap tm).window⟩ : Client)) :: s.heap,
                nextAddr := s.nextAddr + 1,
                ws := (s.ws.set s.curW emptyWs).set idx ⟨some s.nextAddr, some s.nextAddr⟩,
                curW := idx } : WmState)).curr⟩,
            curW := idx } : WmState) := update_global_cur hltS2b
        rw [hsel2] at hq
        rw [hq]
        show ({ s with
          heap := (s.nextAddr, (⟨none, none, (cellOf s.heap tm).window⟩ : Client)) :: s.heap,
          nextAddr := s.nextAddr + 1,
          ws := ((s.ws.set s.curW emptyWs).set idx
            ⟨some s.nextAddr, some s.nextAddr⟩).set idx ⟨some s.nextAddr, some s.nextAddr⟩,
          curW := idx } : WmState) = _
        rw [List.set_set]
      have hgn : hGet (({ s with
          heap := (s.nextAddr, (⟨none, none, (cellOf s.heap tm).window⟩ : Client)) :: s.heap,
          nextAddr := s.nextAddr + 1,
          ws := (s.ws.set s.curW emptyWs).set idx ⟨some s.nextAddr, some s.nextAddr⟩,
          curW := idx } : WmState)).heap s.nextAddr
          = some (⟨none, none, (cellOf s.heap tm).window⟩ : Client) := by
        show hGet ((s.nextAddr, _) :: s.heap) s.nextAddr = _
        simp [hGet]
      have hrem : remove_window ({ s with
          heap := (s.nextAddr, (⟨none, none, (cellOf s.heap tm).window⟩ : Client)) :: s.heap,
          nextAddr := s.nextAddr + 1,
          ws := (s.ws.set s.curW emptyWs).set idx ⟨some s.nextAddr, some s.nextAddr⟩,
          curW := idx } : WmState) (cellOf s.heap tm).window = .ok ({ s with
          heap := hFree ((s.nextAddr,
            (⟨none, none, (cellOf s.heap tm).window⟩ : Client)) :: s.heap) s.nextAddr,
          nextAddr := s.nextAddr + 1,
          ws := ((s.ws.set s.curW emptyWs).set idx
            ⟨some s.nextAddr, some s.nextAddr⟩).set idx ⟨none, none⟩,
          curW := idx } : WmState) := by
        rw [remove_window_spec_single (by rw [hsel2]) hgn rfl rfl rfl hltS2b]
      have hltS5 : idx < ((s.ws.set s.curW emptyWs).set idx
          ⟨some s.nextAddr, some s.nextAddr⟩).length := by
        simp [hInv.len10, hidx]
      have hsel5 : selWs ({ s with
          heap := hFree ((s.nextAddr,
            (⟨none, none, (cellOf s.heap tm).window⟩ : Client)) :: s.heap) s.nextAddr,
          nextAddr := s.nextAddr + 1,
          ws := ((s.ws.set s.curW emptyWs).set idx
            ⟨some s.nextAddr, some s.nextAddr⟩).set idx ⟨none, none⟩,
          curW := idx } : WmState) = (⟨none, none⟩ : Workspace) := by
        show ((((s.ws.set s.curW emptyWs).set idx
          ⟨some s.nextAddr, some s.nextAddr⟩).set idx ⟨none, none⟩).getD idx emptyWs) = _
        rw [getD_set_self hltS5]
      have hch5 : chainTo ({ s with
          heap := hFree ((s.nextAddr,
            (⟨none, none, (cellOf s.heap tm).window⟩ : Client)) :: s.heap) s.nextAddr,
          nextAddr := s.nextAddr + 1,
          ws := ((s.ws.set s.curW emptyWs).set idx
            ⟨some s.nextAddr, some s.nextAddr⟩).set idx ⟨none, none⟩,
          curW := idx } : WmState).heap none (selWs ({ s with
          heap := hFree ((s.nextAddr,
            (⟨none, none, (cellOf s.heap tm).window⟩ : Client)) :: s.heap) s.nextAddr,
          nextAddr := s.nextAddr + 1,
          ws := ((s.ws.set s.curW emptyWs).set idx
            ⟨some s.nextAddr, some s.nextAddr⟩).set idx ⟨none, none⟩,
          curW := idx } : WmState)).first [] none none = true := by
        rw [hsel5]
        rfl
      obtain ⟨t1, ht1⟩ := tile_screen_ok hch5 (by simp)
      obtain ⟨t2, ht2⟩ := update_curr_ok hch5 (by simp)
      unfold client_to_workspace at h
      rw [if_neg hc0] at h
      simp only [htm, hupd, hg, hadd2, hsave, hug3,
        hsel2, hgn, hrem, ht1, ht2] at h
      cases h
      refine ⟨by simp [hInv.len10], hidx, ?_, ?_, [], none, ?_, by simp, by simp [winsOf], ?_⟩
      · intro p hp
        have hp2 := mem_hFree hp
        rcases List.mem_cons.1 hp2 with hh | hh
        · rw [hh]
          exact Nat.lt_succ_self _
        · exact Nat.lt_succ_of_lt (hInv.bound p hh)
      · intro k hk
        show (((s.ws.set s.curW emptyWs).set idx
          ⟨some s.nextAddr, some s.nextAddr⟩).set idx (⟨none, none⟩ : Workspace)).getD k emptyWs
          = emptyWs
        rw [getD_set_ne hk, getD_set_ne hk]
        by_cases hkc : k = s.curW
        · rw [hkc, getD_set_self hlt]
        · rw [getD_set_ne hkc]
          exact hInv.others k hkc
      · exact hch5
      · show (match (selWs ({ s with
          heap := hFree ((s.nextAddr,
            (⟨none, none, (cellOf s.heap tm).window⟩ : Client)) :: s.heap) s.nextAddr,
          nextAddr := s.nextAddr + 1,
          ws := ((s.ws.set s.curW emptyWs).set idx
            ⟨some s.nextAddr, some s.nextAddr⟩).set idx ⟨none, none⟩,
          curW := idx } : WmState)).curr with
          | none => ([] : List Addr) = [] | some c => c ∈ ([] : List Addr))
        rw [hsel5]

end StupidWM

namespace StupidWM

theorem step_inv {s s' : WmState} (hInv : Inv s) (hs : Step s s') : Inv s' := by
  cases hs with
  | maprequestStep w t h => exact maprequest_inv hInv h
  | destroynotifyStep w t h => exact destroynotify_inv hInv h
  | enternotifyStep w t h => exact enternotify_inv hInv h
  | changeStep idx t hidx h => exact change_workspace_inv hInv hidx h
  | clientToStep idx t hidx h => exact client_to_workspace_inv hInv hidx h
  | moveLeftStep t h => exact move_left_inv hInv h
  | moveRightStep t h => exact move_right_inv hInv h
  | moveUpStep t h => exact move_up_inv hInv h
  | moveDownStep t h => exact move_down_inv hInv h
  | killCurrStep t h => exact kill_curr_inv hInv h
  | spawnStep t h => exact spawn_inv hInv h
  | exposeStep b t h => exact expose_inv hInv h
  | configurerequestStep w t h => exact configurerequest_inv hInv h
  | configurenotifyStep t h => exact configurenotify_inv hInv h
  | quitStep t h => exact quit_inv hInv h

theorem reachable_inv {mw mh : Nat} {s : WmState} (hr : Reachable mw mh s) : Inv s := by
  induction hr with
  | refl => exact inv_initState mw mh
  | tail hab hbc ih => exact step_inv ih hbc

end StupidWM

namespace StupidWM

/-! ## Concrete states used to exercise the claims -/

/-- One managed client (window 100) on workspace 0, as produced by a single
`maprequest` from startup. -/
def singleWinState : WmState :=
  ⟨[(1, ⟨none, none, 100⟩)], 2,
   [⟨some 1, some 1⟩, emptyWs, emptyWs, emptyWs, emptyWs,
    emptyWs, emptyWs, emptyWs, emptyWs, emptyWs], 0, 1920, 1080, false⟩

/-- Two managed clients (windows 100, 200) linked head/tail on workspace 0,
as produced by two `maprequest`s from startup; window 200 is focused. -/
def twoClientState : WmState :=
  ⟨[(1, ⟨some 2, none, 100⟩), (2, ⟨none, some 1, 200⟩)], 3,
   [⟨some 1, some 2⟩, emptyWs, emptyWs, emptyWs, emptyWs,
    emptyWs, emptyWs, emptyWs, emptyWs, emptyWs], 0, 1920, 1080, false⟩

/-- Workspace 0 holds window 100, workspace 1 holds window 200; workspace 0
is active. -/
def twoWsState : WmState :=
  ⟨[(1, ⟨none, none, 100⟩), (2, ⟨none, none, 200⟩)], 3,
   [⟨some 1, some 1⟩, ⟨some 2, some 2⟩, emptyWs, emptyWs, emptyWs,
    emptyWs, emptyWs, emptyWs, emptyWs, emptyWs], 0, 1920, 1080, false⟩

/-- Claim C7: with exactly one client in the active list, `tile_screen` moves
it to `(10, 30, width − 3·10, height − 3·10)` — the single-window height is
`height − 30`, not `height − 30 − bar_height`. -/
theorem tile_single_geometry {s : WmState} {f : Addr} {c : Client}
    (hf : (selWs s).first = some f) (hg : hGet s.heap f = some c) (hnx : c.next = none) :
    tile_screen s = .ok [XCall.moveResize c.window 10 30
      ((s.monW : Int) - 3 * 10) ((s.monH : Int) - 3 * 10)] :=
  tile_screen_single hf hg hnx

/-- Witness for C7: on a 1920×1080 monitor the single window gets
`(10, 30, 1890, 1050)`. -/
theorem tile_single_geometry_witness :
    tile_screen singleWinState = .ok [XCall.moveResize 100 10 30 1890 1050] := by
  rw [@tile_single_geometry singleWinState 1 ⟨none, none, 100⟩ (by decide) (by decide)
    (by decide)]
  rfl

/-- Counterexample for C7's numbers: the computed single-window geometry on
1920×1080 is `(10, 30, 1890, 1050)`, not the claimed `(10, 30, 1890, 1047)`
(nor `height − 3·GAP − BAR_HEIGHT = 1030`). -/
theorem tile_single_spec_mismatch :
    tile_screen singleWinState = .ok [XCall.moveResize 100 10 30 1890 1050] ∧
    (1050 : Int) ≠ 1047 ∧ (1050 : Int) ≠ 1080 - 3 * 10 - 20 := by
  refine ⟨by rfl, by decide, by decide⟩

end StupidWM

namespace StupidWM

/-- Claim C8: with two or more clients, the head gets
`(10, 30, ⌊55·width/100⌋, height − 2·10)` and the `n` stack clients get
width `width − M − 5·10` and height `⌊height/n⌋ − 2·10`, stacked from
`(M + 3·10, 30)` advancing by `⌊height/n⌋` — the master height subtracts
`2·10`, not `2·GAP + BAR_HEIGHT`. -/
theorem tile_multi_geometry {s : WmState} {f nx : Addr} {c : Client}
    {rest : List Addr} {pm : Option Addr}
    (hf : (selWs s).first = some f) (hg : hGet s.heap f = some c)
    (hnx : c.next = some nx)
    (hrest : chainTo s.heap (some f) (some nx) rest pm none = true)
    (hlen : rest.length ≤ s.heap.length) :
    tile_screen s = .ok (XCall.moveResize c.window 10 30
        ((55 * s.monW / 100 : Nat) : Int) ((s.monH : Int) - 2 * 10)
      :: rest.enum.map (fun p =>
          XCall.moveResize (winOf s.heap p.2) (((55 * s.monW / 100 : Nat) : Int) + 3 * 10)
            (30 + (p.1 : Int) * ((s.monH / rest.length : Nat) : Int))
            ((s.monW : Int) - ((55 * s.monW / 100 : Nat) : Int) - 5 * 10)
            (((s.monH / rest.length : Nat) : Int) - 2 * 10))) := by
  have hcoll : collectCells s.heap s.heap.length (some nx)
      = .ok (rest.map (fun a => (a, cellOf s.heap a))) :=
    collectCells_spec hrest hlen
  unfold tile_screen
  rw [hf]
  simp only [hg, hnx, hcoll, List.enum_map, List.map_map, List.length_map]
  rfl

/-- Witness for C8: two clients on 1920×1080 give master `(10, 30, 1056, 1060)`
and the one stack client `(1086, 30, 814, 1060)`. -/
theorem tile_multi_geometry_witness :
    tile_screen twoClientState = .ok [XCall.moveResize 100 10 30 1056 1060,
      XCall.moveResize 200 1086 30 814 1060] := by
  rw [@tile_multi_geometry twoClientState 1 2 ⟨some 2, none, 100⟩ [2] (some 2)
    (by decide) (by decide) (by decide) (by decide) (by decide)]
  rfl

/-- Counterexample for C8's numbers: the computed geometries are
`(10, 30, 1056, 1060)` and `(1086, 30, 814, 1060)`, not the claimed master
height 1030 and stack height 520. -/
theorem tile_multi_spec_mismatch :
    tile_screen twoClientState = .ok [XCall.moveResize 100 10 30 1056 1060,
      XCall.moveResize 200 1086 30 814 1060] ∧
    (1060 : Int) ≠ 1030 ∧ (1060 : Int) ≠ 520 := by
  refine ⟨by rfl, by decide, by decide⟩

end StupidWM

namespace StupidWM

/-- Claim C1: the round trip `change_workspace 1; change_workspace 0` from a
state with one client on workspace 0 does NOT preserve the workspace's list:
the stale `SEL_MONITOR_WS` alias in `update_global` overwrites the old slot
with the target slot's (empty) pair before the index moves, so the list head
and focused pointer of workspace 0 are lost. -/
theorem change_workspace_roundtrip_loses_list :
    ∃ s1 t1 s2 t2 s3 t3,
      maprequest (initState 1920 1080) 100 = .ok (s1, t1) ∧
      change_workspace s1 1 = .ok (s2, t2) ∧
      change_workspace s2 0 = .ok (s3, t3) ∧
      getWs s1 0 = ⟨some 1, some 1⟩ ∧ winOf s1.heap 1 = 100 ∧
      getWs s3 0 = ⟨none, none⟩ := by
  refine ⟨_, _, _, _, _, _, rfl, rfl, rfl, ?_, ?_, ?_⟩ <;> rfl

/-- Claim C3: `client_to_workspace 2` from a state with a single client on
workspace 0 leaves EVERY workspace list empty (and moves the index to 2):
`tmp2 = arg.workspace_idx` reloads the destination instead of the origin,
so the handler removes the window it just added. -/
theorem client_to_workspace_drops_client :
    ∃ s1 t1 s2 t2,
      maprequest (initState 1920 1080) 100 = .ok (s1, t1) ∧
      getWs s1 0 = ⟨some 1, some 1⟩ ∧ winOf s1.heap 1 = 100 ∧
      client_to_workspace s1 2 = .ok (s2, t2) ∧
      s2.curW = 2 ∧ (∀ k < 10, getWs s2 k = ⟨none, none⟩) := by
  refine ⟨_, _, _, _, rfl, rfl, rfl, rfl, rfl, ?_⟩
  decide

/-- Claim C4: removing the tail client of a two-client list dereferences the
null `cl->next`: the `DestroyNotify` handler for the focused tail window on a
state built by two `maprequest`s hits undefined behaviour instead of
completing or dying cleanly. -/
theorem destroy_tail_null_dereference :
    ∃ s1 t1 s2 t2,
      maprequest (initState 1920 1080) 100 = .ok (s1, t1) ∧
      maprequest s1 200 = .ok (s2, t2) ∧
      getWs s2 0 = ⟨some 1, some 2⟩ ∧
      winOf s2.heap 1 = 100 ∧ winOf s2.heap 2 = 200 ∧
      destroynotify s2 200 = .error "null dereference" := by
  refine ⟨_, _, _, _, rfl, rfl, ?_, ?_, ?_, ?_⟩ <;> rfl

/-- Claim C6: `remove_window` unlinks a matching head node correctly (the new
focused client is the next node), but on a matching TAIL node it executes
`cl->next->prev` after establishing `cl->next == NULL` — a null dereference,
so the claimed post-condition is unreachable for tail nodes. -/
theorem remove_window_tail_crash :
    (∃ s', remove_window twoClientState 100 = .ok s' ∧
      getWs s' 0 = ⟨some 2, some 2⟩ ∧ winOf s'.heap 2 = 200) ∧
    remove_window twoClientState 200 = .error "null dereference" := by
  refine ⟨⟨_, rfl, rfl, rfl⟩, rfl⟩

end StupidWM

namespace StupidWM

/-- Claim C2: `change_workspace idx` with `idx` equal to the current index
returns with no effect; with `idx` different, it unmaps every client of the
current list, saves and switches to slot `idx`, maps every client of slot
`idx`'s list, then retiles, refocuses and repaints the bar. -/
theorem change_workspace_behaviour {s : WmState} {idx : Nat} {nsA nsI : List Addr}
    {pmA pmI : Option Addr}
    (hlt : s.curW < s.ws.length)
    (hA : chainTo s.heap none (selWs s).first nsA pmA none = true)
    (hAlen : nsA.length ≤ s.heap.length)
    (hI : chainTo s.heap none (getWs s idx).first nsI pmI none = true)
    (hIlen : nsI.length ≤ s.heap.length) :
    (idx = s.curW → change_workspace s idx = .ok (s, [])) ∧
    (idx ≠ s.curW → ∃ t3 t4,
      change_workspace s idx = .ok ({ s with
          ws := s.ws.set s.curW ⟨(getWs s idx).first, (getWs s idx).curr⟩,
          curW := idx },
        (winsOf s.heap nsA).map XCall.unmapW ++ (winsOf s.heap nsI).map XCall.mapW
          ++ t3 ++ t4 ++ [XCall.drawBar]) ∧
      tile_screen ({ s with
          ws := s.ws.set s.curW ⟨(getWs s idx).first, (getWs s idx).curr⟩,
          curW := idx } : WmState) = .ok t3 ∧
      update_curr ({ s with
          ws := s.ws.set s.curW ⟨(getWs s idx).first, (getWs s idx).curr⟩,
          curW := idx } : WmState) = .ok t4) := by
  constructor
  · intro he
    unfold change_workspace
    rw [if_pos he]
  · intro hne
    exact change_workspace_spec hne hlt hA hAlen hI hIlen

/-- Witness for C2: switching from workspace 0 (window 100) to workspace 1
(window 200) unmaps 100, maps 200, retiles and refocuses on the new state,
and repaints the bar; switching to 0 would be a no-op. -/
theorem change_workspace_behaviour_witness :
    (1 = twoWsState.curW → change_workspace twoWsState 1 = .ok (twoWsState, [])) ∧
    (1 ≠ twoWsState.curW → ∃ t3 t4,
      change_workspace twoWsState 1 = .ok ({ twoWsState with
          ws := twoWsState.ws.set twoWsState.curW
            ⟨(getWs twoWsState 1).first, (getWs twoWsState 1).curr⟩,
          curW := 1 },
        (winsOf twoWsState.heap [1]).map XCall.unmapW
          ++ (winsOf twoWsState.heap [2]).map XCall.mapW
          ++ t3 ++ t4 ++ [XCall.drawBar]) ∧
      tile_screen ({ twoWsState with
          ws := twoWsState.ws.set twoWsState.curW
            ⟨(getWs twoWsState 1).first, (getWs twoWsState 1).curr⟩,
          curW := 1 } : WmState) = .ok t3 ∧
      update_curr ({ twoWsState with
          ws := twoWsState.ws.set twoWsState.curW
            ⟨(getWs twoWsState 1).first, (getWs twoWsState 1).curr⟩,
          curW := 1 } : WmState) = .ok t4) :=
  @change_workspace_behaviour twoWsState 1 [1] [2] (some 1) (some 2)
    (by decide) (by decide) (by decide) (by decide) (by decide)

/-- Claim C5: in every reachable state, the active workspace's list is a
well-formed chain, and the focused client is a node of the list when the
list is non-empty and null when it is empty. -/
theorem focus_membership {mw mh : Nat} {s : WmState} (hr : Reachable mw mh s) :
    ∃ ns pm, chainTo s.heap none (selWs s).first ns pm none = true ∧
      (ns ≠ [] → ∃ c, (selWs s).curr = some c ∧ c ∈ ns) ∧
      (ns = [] → (selWs s).curr = none) := by
  obtain ⟨ns, pm, hA⟩ := (reachable_inv hr).active
  refine ⟨ns, pm, hA.1, ?_, ?_⟩
  · intro hne
    cases hc : (selWs s).curr with
    | none =>
      have hq := hA.2.2.2
      rw [hc] at hq
      exact absurd hq hne
    | some c =>
      have hq := hA.2.2.2
      rw [hc] at hq
      exact ⟨c, rfl, hq⟩
  · intro hnil
    cases hc : (selWs s).curr with
    | none => rfl
    | some c =>
      have hq := hA.2.2.2
      rw [hc, hnil] at hq
      exact absurd hq (List.not_mem_nil c)

/-- Witness for C5 at the (reachable) startup state. -/
theorem focus_membership_witness :
    ∃ ns pm, chainTo (initState 1920 1080).heap none
        (selWs (initState 1920 1080)).first ns pm none = true ∧
      (ns ≠ [] → ∃ c, (selWs (initState 1920 1080)).curr = some c ∧ c ∈ ns) ∧
      (ns = [] → (selWs (initState 1920 1080)).curr = none) :=
  focus_membership Relation.ReflTransGen.refl

/-- Claim C9: a `DestroyNotify` for a window that is not the window of any
node of the active list returns the state unchanged with no X calls: no list
mutation, no relayout, no refocus. -/
theorem destroynotify_unmanaged {s : WmState} {w : Win} {ns : List Addr} {pm : Option Addr}
    (hc : chainTo s.heap none (selWs s).first ns pm none = true)
    (hnd : ns.Nodup)
    (hw : ∀ a ∈ ns, winOf s.heap a ≠ w) :
    destroynotify s w = .ok (s, []) := by
  unfold destroynotify
  rw [findWin_spec hc (chain_length_le hc hnd)]
  have hfd : ns.find? (fun a => winOf s.heap a == w) = none :=
    List.find?_eq_none.2 (fun a ha => by simpa using hw a ha)
  rw [hfd]

/-- Witness for C9: destroying never-mapped window 999 is a no-op. -/
theorem destroynotify_unmanaged_witness :
    destroynotify singleWinState 999 = .ok (singleWinState, []) :=
  @destroynotify_unmanaged singleWinState 999 [1] (some 1)
    (by decide) (by decide) (by decide)

end StupidWM

namespace StupidWM

/-- Claim C10: `maprequest`'s already-managed pre-check walks only the active
workspace's list, so when a heap cell of another workspace already carries
window `w`, the handler still appends a fresh node with the same handle to
the active list: afterwards two distinct cells carry `w`. -/
theorem maprequest_cross_workspace_duplicate {s : WmState} {w : Win} {ns : List Addr}
    {pm : Option Addr} {a0 : Addr} {c0 : Client}
    (hlt : s.curW < s.ws.length)
    (hbound : ∀ p ∈ s.heap, p.1 < s.nextAddr)
    (hc : chainTo s.heap none (selWs s).first ns pm none = true)
    (hnd : ns.Nodup)
    (hnin : ∀ a ∈ ns, winOf s.heap a ≠ w)
    (hg0 : hGet s.heap a0 = some c0) (hw0 : c0.window = w) :
    ∃ s' t, maprequest s w = .ok (s', t) ∧
      a0 ≠ s.nextAddr ∧
      winOf s'.heap s.nextAddr = w ∧
      winOf s'.heap a0 = w ∧
      chainTo s'.heap none (selWs s').first (ns ++ [s.nextAddr]) (some s.nextAddr)
        none = true := by
  have hlen : ns.length ≤ s.heap.length := chain_length_le hc hnd
  have ha0lt : a0 < s.nextAddr := by
    have hk := hGet_isSome_mem_keys (show (hGet s.heap a0).isSome by simp [hg0])
    rcases List.mem_map.1 hk with ⟨p, hp, hpe⟩
    rw [← hpe]
    exact hbound p hp
  have ha0ne : a0 ≠ s.nextAddr := Nat.ne_of_lt ha0lt
  have hfd : ns.find? (fun a => winOf s.heap a == w) = none :=
    List.find?_eq_none.2 (fun a ha => by simpa using hnin a ha)
  cases hfr : (selWs s).first with
  | none =>
    have hns : ns = [] := by
      cases hnse : ns with
      | nil => rfl
      | cons a ns' =>
        have hq := (chainTo_cons_iff.1 (by rw [← hnse]; exact (hfr ▸ hc))).1
        cases hq
    subst hns
    have hsel2 : selWs ({ s with
        heap := (s.nextAddr, (⟨none, none, w⟩ : Client)) :: s.heap,
        nextAddr := s.nextAddr + 1,
        ws := s.ws.set s.curW ⟨some s.nextAddr, some s.nextAddr⟩ } : WmState)
        = ⟨some s.nextAddr, some s.nextAddr⟩ := by
      show ((s.ws.set s.curW _).getD s.curW emptyWs) = _
      rw [getD_set_self hlt]
    have hch2 : chainTo ({ s with
        heap := (s.nextAddr, (⟨none, none, w⟩ : Client)) :: s.heap,
        nextAddr := s.nextAddr + 1,
        ws := s.ws.set s.curW ⟨some s.nextAddr, some s.nextAddr⟩ } : WmState).heap none
        (selWs ({ s with
          heap := (s.nextAddr, (⟨none, none, w⟩ : Client)) :: s.heap,
          nextAddr := s.nextAddr + 1,
          ws := s.ws.set s.curW ⟨some s.nextAddr, some s.nextAddr⟩ } : WmState)).first
        [s.nextAddr] (some s.nextAddr) none = true := by
      rw [hsel2]
      apply chainTo_cons_iff.2
      refine ⟨rfl, ⟨none, none, w⟩, by simp [hGet], rfl, chainTo_nil_iff.2 ⟨rfl, rfl⟩⟩
    obtain ⟨t3, ht3⟩ := tile_screen_ok hch2 (by simp)
    obtain ⟨t4, ht4⟩ := update_curr_ok hch2 (by simp)
    refine ⟨_, [XCall.selectInput w] ++ [XCall.mapW w] ++ t3 ++ t4, ?_, ha0ne, ?_, ?_, hch2⟩
    · unfold maprequest
      simp only [findWin_spec hc hlen, hfd, add_window_spec_empty hfr hlt w, ht3, ht4]
    · exact winOf_eq_of_hGet (show hGet ((s.nextAddr, (⟨none, none, w⟩ : Client)) :: s.heap)
        s.nextAddr = some (⟨none, none, w⟩ : Client) by simp [hGet])
    · rw [show winOf ({ s with
          heap := (s.nextAddr, (⟨none, none, w⟩ : Client)) :: s.heap,
          nextAddr := s.nextAddr + 1,
          ws := s.ws.set s.curW ⟨some s.nextAddr, some s.nextAddr⟩ } : WmState).heap a0
          = c0.window from winOf_eq_of_hGet (by
            show hGet ((s.nextAddr, _) :: s.heap) a0 = some c0
            simp only [hGet]
            rw [if_neg (show ¬ s.nextAddr = a0 from fun he => ha0ne he.symm)]
            exact hg0)]
      exact hw0
  | some f =>
    have hchainf : chainTo s.heap none (some f) ns pm none = true := hfr ▸ hc
    rcases chainTo_head_eq hchainf with ⟨ns0, hns⟩
    have hnenil : ns ≠ [] := by
      rw [hns]
      simp
    obtain ⟨l, hl⟩ : ∃ l, ns.getLast? = some l :=
      ⟨ns.getLast hnenil, List.getLast?_eq_getLast_of_ne_nil hnenil⟩
    have hlmem : l ∈ ns := getLast?_mem_list hl
    have hfresh : ∀ b ∈ ns, b ≠ s.nextAddr := by
      intro b hb he
      have hk := hGet_isSome_mem_keys (chainTo_mem_isSome hc hb)
      rcases List.mem_map.1 hk with ⟨p, hp, hpe⟩
      have hlt2 := hbound p hp
      rw [hpe, he] at hlt2
      exact lt_irrefl s.nextAddr hlt2
    have ha0l : a0 ≠ l := by
      intro he
      have hwl : winOf s.heap l = w := by
        rw [← he]
        rw [winOf_eq_of_hGet hg0]
        exact hw0
      exact hnin l hlmem hwl
    have hchain2 := @add_chain s.heap none f l s.nextAddr ns pm w hchainf hl hnd hfresh
    have hsel2 : (selWs ({ s with
        heap := hSet ((s.nextAddr, (⟨none, some l, w⟩ : Client)) :: s.heap) l
          { cellOf s.heap l with next := some s.nextAddr },
        nextAddr := s.nextAddr + 1,
        ws := s.ws.set s.curW ⟨(selWs s).first, some s.nextAddr⟩ } : WmState))
        = ⟨(selWs s).first, some s.nextAddr⟩ := by
      show ((s.ws.set s.curW _).getD s.curW emptyWs) = _
      rw [getD_set_self hlt]
    have hch2 : chainTo ({ s with
        heap := hSet ((s.nextAddr, (⟨none, some l, w⟩ : Client)) :: s.heap) l
          { cellOf s.heap l with next := some s.nextAddr },
        nextAddr := s.nextAddr + 1,
        ws := s.ws.set s.curW ⟨(selWs s).first, some s.nextAddr⟩ } : WmState).heap none
        (selWs ({ s with
          heap := hSet ((s.nextAddr, (⟨none, some l, w⟩ : Client)) :: s.heap) l
            { cellOf s.heap l with next := some s.nextAddr },
          nextAddr := s.nextAddr + 1,
          ws := s.ws.set s.curW ⟨(selWs s).first, some s.nextAddr⟩ } : WmState)).first
        (ns ++ [s.nextAddr]) (some s.nextAddr) none = true := by
      rw [hsel2]
      show chainTo _ none (selWs s).first (ns ++ [s.nextAddr]) (some s.nextAddr) none = true
      rw [hfr]
      exact hchain2
    have hlen2 : (ns ++ [s.nextAddr]).length ≤ (hSet ((s.nextAddr,
        (⟨none, some l, w⟩ : Client)) :: s.heap) l
        { cellOf s.heap l with next := some s.nextAddr }).length := by
      rw [length_hSet]
      simp only [List.length_append, List.length_cons, List.length_nil]
      omega
    obtain ⟨t3, ht3⟩ := tile_screen_ok hch2 hlen2
    obtain ⟨t4, ht4⟩ := update_curr_ok hch2 hlen2
    refine ⟨_, [XCall.selectInput w] ++ [XCall.mapW w] ++ t3 ++ t4, ?_, ha0ne, ?_, ?_, hch2⟩
    · unfold maprequest
      simp only [findWin_spec hc hlen, hfd, add_window_spec_cons hfr hchainf hl hlen hbound w,
        ht3, ht4]
    · have hlna : ¬ s.nextAddr = l := fun he => hfresh l hlmem he.symm
      refine winOf_eq_of_hGet (c := (⟨none, some l, w⟩ : Client)) ?_
      show hGet (hSet ((s.nextAddr, (⟨none, some l, w⟩ : Client)) :: s.heap) l
        { cellOf s.heap l with next := some s.nextAddr }) s.nextAddr = _
      rw [hGet_hSet_ne hlna]
      simp [hGet]
    · rw [show winOf ({ s with
          heap := hSet ((s.nextAddr, (⟨none, some l, w⟩ : Client)) :: s.heap) l
            { cellOf s.heap l with next := some s.nextAddr },
          nextAddr := s.nextAddr + 1,
          ws := s.ws.set s.curW ⟨(selWs s).first, some s.nextAddr⟩ } : WmState).heap a0
          = c0.window from winOf_eq_of_hGet (by
            show hGet (hSet ((s.nextAddr, (⟨none, some l, w⟩ : Client)) :: s.heap) l
              { cellOf s.heap l with next := some s.nextAddr }) a0 = some c0
            rw [hGet_hSet_ne ha0l]
            simp only [hGet]
            rw [if_neg (show ¬ s.nextAddr = a0 from fun he => ha0ne he.symm)]
            exact hg0)]
      exact hw0

/-- Witness for C10: workspace 1's node already carries window 200, yet a
`maprequest` for 200 on active workspace 0 appends a second node with
handle 200. -/
theorem maprequest_cross_workspace_duplicate_witness :
    ∃ s' t, maprequest twoWsState 200 = .ok (s', t) ∧
      (2 : Addr) ≠ twoWsState.nextAddr ∧
      winOf s'.heap twoWsState.nextAddr = 200 ∧
      winOf s'.heap 2 = 200 ∧
      chainTo s'.heap none (selWs s').first ([1] ++ [twoWsState.nextAddr])
        (some twoWsState.nextAddr) none = true :=
  @maprequest_cross_workspace_duplicate twoWsState 200 [1] (some 1) 2 ⟨none, none, 200⟩
    (by decide) (by decide) (by decide) (by decide) (by decide) (by decide) (by decide)

end StupidWM
